import Mathlib

/-!
Verification development for the `pdf_structure_extractor.py` multilingual PDF
structure extractor.  The Python source is shallowly embedded: Python `str`
values become `List Char` (lists of Unicode code points), Python `float`
becomes `ℚ` (every constant in the source is exactly representable and no
compared quantity is close enough to a representation boundary for double
rounding to change a comparison), Python exceptions become `Except`, and the
external collaborators (PyMuPDF page/span decoding and the `unicodedata`
module) are modelled by explicit data types and code-point range functions.
-/

namespace PDFX

/-- Python strings are modelled as lists of Unicode code points. -/
abbrev Chars := List Char

/-- Models Python `str.isspace` on the characters the extractor meets:
space, tab, newline, carriage return, vertical tab and form feed. -/
def pyIsSpaceChar (c : Char) : Bool :=
  c = ' ' || c = '\t' || c = '\n' || c = '\r' || c.toNat = 11 || c.toNat = 12

/-- Models Python `str.isdigit`: ASCII digits plus the Arabic-Indic and
extended Arabic-Indic digit blocks that can occur in the supported scripts. -/
def pyIsDigitChar (c : Char) : Bool :=
  (decide ('0' ≤ c) && decide (c ≤ '9'))
  || (decide (0x660 ≤ c.toNat) && decide (c.toNat ≤ 0x669))
  || (decide (0x6F0 ≤ c.toNat) && decide (c.toNat ≤ 0x6F9))

/-- ASCII letter test. -/
def isAsciiAlpha (c : Char) : Bool :=
  (decide ('A' ≤ c) && decide (c ≤ 'Z')) || (decide ('a' ≤ c) && decide (c ≤ 'z'))

/-- ASCII alphanumeric test. -/
def isAsciiAlnum (c : Char) : Bool :=
  isAsciiAlpha c || (decide ('0' ≤ c) && decide (c ≤ '9'))

/-- Models the source's `c.isalnum() or ord(c) > 127` test: for code points
below 128 Python's `isalnum` coincides with the ASCII test, and every higher
code point already satisfies the second disjunct. -/
def pyUsefulChar (c : Char) : Bool :=
  isAsciiAlnum c || decide (127 < c.toNat)

/-- The punctuation set `'.,;:!?-()[]{}'` skipped by `_get_script_type`
(the two braces are written by code point). -/
def scriptSkipPunct : Chars :=
  ['.', ',', ';', ':', '!', '?', '-', '(', ')', '[', ']', Char.ofNat 123, Char.ofNat 125]

/-- Characters ignored by `_get_script_type`: whitespace, digits and the
fixed punctuation set. -/
def scriptSkip (c : Char) : Bool :=
  pyIsSpaceChar c || pyIsDigitChar c || decide (c ∈ scriptSkipPunct)

/-- Models the classification of `unicodedata.name(char).split()[0]` used by
`_get_script_type`: the first word of the Unicode character name is `LATIN`
for the Latin blocks, `CYRILLIC` for the Cyrillic blocks, `ARABIC` for the
Arabic blocks, and `CJK`/`HIRAGANA`/`KATAKANA`/`HANGUL` for the CJK blocks;
everything else (including unnamed characters, which raise `ValueError` in
the source) falls into the `other` bucket.  The name lookup of the external
`unicodedata` collaborator is modelled by the corresponding code-point
ranges. -/
def charClass (c : Char) : String :=
  let n := c.toNat
  if (65 ≤ n ∧ n ≤ 90) ∨ (97 ≤ n ∧ n ≤ 122) ∨
     (0xC0 ≤ n ∧ n ≤ 0xFF ∧ n ≠ 0xD7 ∧ n ≠ 0xF7) ∨ (0x100 ≤ n ∧ n ≤ 0x24F) then
    "latin"
  else if (0x400 ≤ n ∧ n ≤ 0x4FF) ∨ (0x500 ≤ n ∧ n ≤ 0x52F) then
    "cyrillic"
  else if (0x600 ≤ n ∧ n ≤ 0x6FF) ∨ (0x750 ≤ n ∧ n ≤ 0x77F) ∨
          (0xFB50 ≤ n ∧ n ≤ 0xFDFF) ∨ (0xFE70 ≤ n ∧ n ≤ 0xFEFF) then
    "arabic"
  else if (0x4E00 ≤ n ∧ n ≤ 0x9FFF) ∨ (0x3400 ≤ n ∧ n ≤ 0x4DBF) ∨
          (0x3040 ≤ n ∧ n ≤ 0x309F) ∨ (0x30A0 ≤ n ∧ n ≤ 0x30FF) ∨
          (0xAC00 ≤ n ∧ n ≤ 0xD7AF) ∨ (0x1100 ≤ n ∧ n ≤ 0x11FF) ∨
          (0x3130 ≤ n ∧ n ≤ 0x318F) ∨ (0xF900 ≤ n ∧ n ≤ 0xFAFF) then
    "cjk"
  else
    "other"

/-- Adds one occurrence of key `k` to an insertion-ordered association list,
modelling a Python `defaultdict(int)` bump. -/
def bumpCount {α : Type} [DecidableEq α] (k : α) : List (α × Nat) → List (α × Nat)
  | [] => [(k, 1)]
  | (k', n) :: rest => if k' = k then (k', n + 1) :: rest else (k', n) :: bumpCount k rest

/-- Models Python `max(items, key=lambda x: x[1])` over an insertion-ordered
association list: the first entry attaining the maximal count wins, because
Python's `max` only replaces its running best on a strictly greater key. -/
def firstMax {α : Type} : List (α × Nat) → α × Nat → α × Nat
  | [], best => best
  | (k, n) :: rest, best =>
      if best.2 < n then firstMax rest (k, n) else firstMax rest best

/-- The per-script occurrence counts accumulated by `_get_script_type`,
in first-insertion order. -/
def scriptCounts (cs : Chars) : List (String × Nat) :=
  cs.foldl (fun acc c => if scriptSkip c then acc else bumpCount (charClass c) acc) []

/-- Embeds `_get_script_type`: empty text is `unknown`, text yielding no
counted character falls back to `latin`, otherwise the majority script wins
(first-inserted on ties, as Python's `max` over dict items). -/
def getScriptType (cs : Chars) : String :=
  if cs = [] then "unknown"
  else
    match scriptCounts cs with
    | [] => "latin"
    | e :: rest => (firstMax rest e).1

/-- Case-mapping pairs modelling Python `str.lower` on the alphabets the
extractor's case-insensitive comparisons actually exercise: ASCII and the
basic Cyrillic alphabet. -/
def lowerTable : List (Char × Char) :=
  [('A', 'a'), ('B', 'b'), ('C', 'c'), ('D', 'd'), ('E', 'e'), ('F', 'f'),
   ('G', 'g'), ('H', 'h'), ('I', 'i'), ('J', 'j'), ('K', 'k'), ('L', 'l'),
   ('M', 'm'), ('N', 'n'), ('O', 'o'), ('P', 'p'), ('Q', 'q'), ('R', 'r'),
   ('S', 's'), ('T', 't'), ('U', 'u'), ('V', 'v'), ('W', 'w'), ('X', 'x'),
   ('Y', 'y'), ('Z', 'z'),
   ('А', 'а'), ('Б', 'б'), ('В', 'в'), ('Г', 'г'), ('Д', 'д'), ('Е', 'е'),
   ('Ж', 'ж'), ('З', 'з'), ('И', 'и'), ('Й', 'й'), ('К', 'к'), ('Л', 'л'),
   ('М', 'м'), ('Н', 'н'), ('О', 'о'), ('П', 'п'), ('Р', 'р'), ('С', 'с'),
   ('Т', 'т'), ('У', 'у'), ('Ф', 'ф'), ('Х', 'х'), ('Ц', 'ц'), ('Ч', 'ч'),
   ('Ш', 'ш'), ('Щ', 'щ'), ('Ъ', 'ъ'), ('Ы', 'ы'), ('Ь', 'ь'), ('Э', 'э'),
   ('Ю', 'ю'), ('Я', 'я'), ('Ё', 'ё')]

/-- Per-character model of Python `str.lower`. -/
def pyToLower (c : Char) : Char :=
  match lowerTable.find? (fun p => p.1 = c) with
  | some p => p.2
  | none => c

/-- Characters that are uppercase for the modelled alphabets. -/
def isUpperChar (c : Char) : Bool :=
  (decide ('A' ≤ c) && decide (c ≤ 'Z'))
  || (decide (0x410 ≤ c.toNat) && decide (c.toNat ≤ 0x42F)) || c = 'Ё'
  || (decide (0xC0 ≤ c.toNat) && decide (c.toNat ≤ 0xDE) && decide (c.toNat ≠ 0xD7))

/-- Characters that are lowercase for the modelled alphabets. -/
def isLowerChar (c : Char) : Bool :=
  (decide ('a' ≤ c) && decide (c ≤ 'z'))
  || (decide (0x430 ≤ c.toNat) && decide (c.toNat ≤ 0x44F)) || c = 'ё'
  || (decide (0xDF ≤ c.toNat) && decide (c.toNat ≤ 0xFF) && decide (c.toNat ≠ 0xF7))

/-- Models Python `str.isupper`: at least one cased character and no
lowercase character. -/
def pyIsUpperStr (cs : Chars) : Bool :=
  cs.any (fun c => isUpperChar c || isLowerChar c) && !cs.any isLowerChar

/-- Models Python `str.strip` (whitespace stripped from both ends). -/
def stripL (cs : Chars) : Chars :=
  ((cs.dropWhile pyIsSpaceChar).reverse.dropWhile pyIsSpaceChar).reverse

/-- The word-accumulation loop of `wordsL`; `acc` holds the current word
reversed. -/
def wordsAux : Chars → Chars → List Chars
  | [], acc => if acc = [] then [] else [acc.reverse]
  | c :: cs, acc =>
    if pyIsSpaceChar c then
      if acc = [] then wordsAux cs [] else acc.reverse :: wordsAux cs []
    else wordsAux cs (c :: acc)

/-- Models Python `str.split()` with no separator: maximal runs of
non-whitespace characters, leading/trailing whitespace discarded. -/
def wordsL (cs : Chars) : List Chars := wordsAux cs []

/-- The run-tracking loop of `collapseWs`; the flag records whether the
previous character was whitespace. -/
def collapseAux : Chars → Bool → Chars
  | [], _ => []
  | c :: cs, inRun =>
    if pyIsSpaceChar c then
      if inRun then collapseAux cs true else ' ' :: collapseAux cs true
    else c :: collapseAux cs false

/-- Models `re.sub(r'\s+', ' ', s)`: each maximal whitespace run becomes a
single space. -/
def collapseWs (cs : Chars) : Chars := collapseAux cs false

/-- Models `sep.join(parts)`. -/
def joinSep (sep : Chars) : List Chars → Chars
  | [] => []
  | [x] => x
  | x :: xs => x ++ sep ++ joinSep sep xs

/-- Models Python substring prefix comparison. -/
def startsWithSub : Chars → Chars → Bool
  | _, [] => true
  | [], _ :: _ => false
  | c :: cs, d :: ds => c = d && startsWithSub cs ds

/-- Models Python `needle in hay` substring containment. -/
def containsSub (hay needle : Chars) : Bool :=
  if startsWithSub hay needle then true
  else
    match hay with
    | [] => false
    | _ :: t => containsSub t needle

/-- Models `unicodedata.normalize('NFC', s)` of the external `unicodedata`
collaborator.  All text handled in this development is already NFC-normal,
on which normalization is the identity. -/
def nfc (cs : Chars) : Chars := cs

/-- English structural keywords from `_setup_language_patterns`. -/
def englishKw : List Chars :=
  ["introduction", "overview", "summary", "background", "conclusion",
   "methodology", "results", "discussion", "references", "appendix",
   "acknowledgments", "abstract", "preface", "contents", "index",
   "objectives", "requirements", "specifications", "timeline",
   "approach", "evaluation", "criteria", "milestones", "scope"].map String.data

/-- Spanish structural keywords. -/
def spanishKw : List Chars :=
  ["introducción", "resumen", "antecedentes", "conclusión",
   "metodología", "resultados", "discusión", "referencias", "apéndice",
   "agradecimientos", "resumen", "prefacio", "contenidos", "índice",
   "objetivos", "requisitos", "especificaciones", "cronograma",
   "enfoque", "evaluación", "criterios", "hitos", "alcance"].map String.data

/-- French structural keywords. -/
def frenchKw : List Chars :=
  ["introduction", "aperçu", "résumé", "contexte", "conclusion",
   "méthodologie", "résultats", "discussion", "références", "annexe",
   "remerciements", "résumé", "préface", "contenu", "index",
   "objectifs", "exigences", "spécifications", "calendrier",
   "approche", "évaluation", "critères", "jalons", "portée"].map String.data

/-- German structural keywords. -/
def germanKw : List Chars :=
  ["einführung", "überblick", "zusammenfassung", "hintergrund", "schluss",
   "methodik", "ergebnisse", "diskussion", "referenzen", "anhang",
   "danksagungen", "zusammenfassung", "vorwort", "inhalt", "index",
   "ziele", "anforderungen", "spezifikationen", "zeitplan",
   "ansatz", "bewertung", "kriterien", "meilensteine", "umfang"].map String.data

/-- Russian structural keywords. -/
def russianKw : List Chars :=
  ["введение", "обзор", "резюме", "предпосылки", "заключение",
   "методология", "результаты", "обсуждение", "ссылки", "приложение",
   "благодарности", "аннотация", "предисловие", "содержание", "индекс",
   "цели", "требования", "спецификации", "график",
   "подход", "оценка", "критерии", "вехи", "область"].map String.data

/-- Arabic structural keywords. -/
def arabicKw : List Chars :=
  ["مقدمة", "نظرة عامة", "ملخص", "خلفية", "خاتمة",
   "منهجية", "نتائج", "مناقشة", "مراجع", "ملحق",
   "شكر وتقدير", "مستخلص", "تمهيد", "محتويات", "فهرس",
   "أهداف", "متطلبات", "مواصفات", "جدول زمني",
   "نهج", "تقييم", "معايير", "معالم", "نطاق"].map String.data

/-- Chinese structural keywords. -/
def chineseKw : List Chars :=
  ["引言", "概述", "摘要", "背景", "结论",
   "方法论", "结果", "讨论", "参考文献", "附录",
   "致谢", "摘要", "前言", "目录", "索引",
   "目标", "要求", "规格", "时间表",
   "方法", "评估", "标准", "里程碑", "范围"].map String.data

/-- Japanese structural keywords. -/
def japaneseKw : List Chars :=
  ["はじめに", "概要", "要約", "背景", "結論",
   "方法論", "結果", "議論", "参考文献", "付録",
   "謝辞", "要旨", "序文", "目次", "索引",
   "目標", "要件", "仕様", "スケジュール",
   "アプローチ", "評価", "基準", "マイルストーン", "範囲"].map String.data

/-- The nested `self.lang_keywords` mapping, in the source's insertion
order of script families and languages. -/
def langKeywords : List (String × List (String × List Chars)) :=
  [("latin", [("english", englishKw), ("spanish", spanishKw),
              ("french", frenchKw), ("german", germanKw)]),
   ("cyrillic", [("russian", russianKw)]),
   ("arabic", [("arabic", arabicKw)]),
   ("cjk", [("chinese", chineseKw), ("japanese", japaneseKw)])]

/-- Finds the keyword list of `language` in the first script family that
contains it, as the `for script_family, languages in ...` loops do. -/
def lookupLang : List (String × List (String × List Chars)) → String → Option (List Chars)
  | [], _ => none
  | (_, langs) :: rest, lang =>
    match langs.find? (fun p => p.1 = lang) with
    | some p => some p.2
    | none => lookupLang rest lang

/-- Embeds `_has_keywords`: keywords of the detected language, falling back
to the English list when the language is unknown to the table. -/
def hasKeywords (textLower : Chars) (language : String) : Bool :=
  match lookupLang langKeywords language with
  | some kws => kws.any (fun k => containsSub textLower k)
  | none => englishKw.any (fun k => containsSub textLower k)

/-- The four Latin-script candidate languages in dict insertion order. -/
def latinLangs : List (String × List Chars) :=
  [("english", englishKw), ("spanish", spanishKw),
   ("french", frenchKw), ("german", germanKw)]

/-- Embeds `_detect_latin_lang`: keyword-substring voting with ties broken
by insertion order, defaulting to English when nothing matches. -/
def detectLatinLang (textLower : Chars) : String :=
  let scores := latinLangs.map (fun p => (p.1, p.2.countP (fun k => containsSub textLower k)))
  match scores with
  | [] => "english"
  | e :: rest =>
    let best := firstMax rest e
    if 0 < best.2 then best.1 else "english"

/-- Embeds `_detect_cyrillic_lang`. -/
def detectCyrillicLang (text : Chars) : String :=
  if "іїє".data.any (fun c => decide (c ∈ text)) then "ukrainian" else "russian"

/-- Embeds `_detect_arabic_lang`. -/
def detectArabicLang (text : Chars) : String :=
  if "پچژگ".data.any (fun c => decide (c ∈ text)) then "persian" else "arabic"

/-- Embeds `_detect_cjk_lang`. -/
def detectCjkLang (text : Chars) : String :=
  if "ひらがなカタカナ".data.any (fun c => decide (c ∈ text)) then "japanese"
  else if "한글".data.any (fun c => decide (c ∈ text)) then "korean"
  else "chinese"

/-!
Hand-rolled anchored matchers for the regular expressions of the source.
Each pattern's consecutive character classes are pairwise disjoint, so greedy
left-to-right matching coincides with Python's backtracking `re.match`.
`\w` under `re.UNICODE` is modelled as ASCII alphanumerics, underscore, or
any non-ASCII code point outside the CJK/general punctuation blocks.
-/

/-- Model of `\w` under `re.UNICODE`. -/
def isWordChar (c : Char) : Bool :=
  isAsciiAlnum c || c = '_' ||
  (decide (127 < c.toNat)
   && !(decide (0x2000 ≤ c.toNat) && decide (c.toNat ≤ 0x206F))
   && !(decide (0x3000 ≤ c.toNat) && decide (c.toNat ≤ 0x303F))
   && !(decide (0xFF01 ≤ c.toNat) && decide (c.toNat ≤ 0xFF0F)))

/-- Consumes one or more characters satisfying `p` (a greedy `X+`),
failing when the head does not satisfy `p`. -/
def chomp1 (p : Char → Bool) : Chars → Option Chars
  | [] => none
  | c :: cs => if p c then some (cs.dropWhile p) else none

/-- Consumes at most one character satisfying `p` (an `X?`). -/
def chompOne (p : Char → Bool) : Chars → Chars
  | [] => []
  | c :: cs => if p c then cs else c :: cs

/-- Consumes one fixed character. -/
def chompChar (c : Char) : Chars → Option Chars
  | [] => none
  | d :: ds => if d = c then some ds else none

/-- Tests that the head satisfies `p` (a final `X+` in a pattern). -/
def need1 (p : Char → Bool) : Chars → Bool
  | [] => false
  | c :: _ => p c

/-- Consumes a literal case-insensitively (`re.IGNORECASE`). -/
def chompLit (lit : Chars) : Chars → Option Chars
  | cs =>
    match lit, cs with
    | [], rest => some rest
    | _ :: _, [] => none
    | l :: ls, c :: cs' => if pyToLower c = l then chompLit ls cs' else none

/-- ASCII Roman-numeral characters of `[IVX]` under `re.IGNORECASE`. -/
def isRomanChar (c : Char) : Bool :=
  pyToLower c = 'i' || pyToLower c = 'v' || pyToLower c = 'x'

/-- Matcher for `^\d+\.?\s+\w+`. -/
def reNumWord (cs : Chars) : Bool :=
  match chomp1 pyIsDigitChar cs with
  | none => false
  | some r1 =>
    match chomp1 pyIsSpaceChar (chompOne (fun c => c = '.') r1) with
    | none => false
    | some r2 => need1 isWordChar r2

/-- Matcher for `^\d+\.\d+\.?\s+\w+`. -/
def reSubNumWord (cs : Chars) : Bool :=
  match chomp1 pyIsDigitChar cs with
  | none => false
  | some r1 =>
    match chompChar '.' r1 with
    | none => false
    | some r2 =>
      match chomp1 pyIsDigitChar r2 with
      | none => false
      | some r3 =>
        match chomp1 pyIsSpaceChar (chompOne (fun c => c = '.') r3) with
        | none => false
        | some r4 => need1 isWordChar r4

/-- Matcher for `^[IVX]+\.?\s+\w+` (case-insensitive). -/
def reRomanWord (cs : Chars) : Bool :=
  match chomp1 isRomanChar cs with
  | none => false
  | some r1 =>
    match chomp1 pyIsSpaceChar (chompOne (fun c => c = '.') r1) with
    | none => false
    | some r2 => need1 isWordChar r2

/-- Matcher for `^[a-zA-Z]\)?\s+\w+`. -/
def reLetterWord (cs : Chars) : Bool :=
  match cs with
  | [] => false
  | c :: rest =>
    if isAsciiAlpha c then
      match chomp1 pyIsSpaceChar (chompOne (fun d => d = ')') rest) with
      | none => false
      | some r2 => need1 isWordChar r2
    else false

/-- Matcher for `^(w1|w2|...)\s+\d+`-style patterns: a case-insensitive
keyword alternation followed by whitespace and a digit from `digits`. -/
def reKeywordNum (kws : List Chars) (digits : Char → Bool) (cs : Chars) : Bool :=
  kws.any (fun k =>
    match chompLit k cs with
    | none => false
    | some r1 =>
      match chomp1 pyIsSpaceChar r1 with
      | none => false
      | some r2 => need1 digits r2)

/-- Arabic-Indic digit class `[٠-٩]`. -/
def isArabicIndicDigit (c : Char) : Bool :=
  decide (0x660 ≤ c.toNat) && decide (c.toNat ≤ 0x669)

/-- Matcher for `^[٠-٩]+\.?\s+\w+`. -/
def reArabicNumWord (cs : Chars) : Bool :=
  match chomp1 isArabicIndicDigit cs with
  | none => false
  | some r1 =>
    match chomp1 pyIsSpaceChar (chompOne (fun c => c = '.') r1) with
    | none => false
    | some r2 => need1 isWordChar r2

/-- CJK ideographic numeral class `[一二三四五六七八九十]`. -/
def isCjkNumeral (c : Char) : Bool :=
  decide (c ∈ "一二三四五六七八九十".data)

/-- Matcher for `^[一二三四五六七八九十]+[、.]?\s*\w+`. -/
def reCjkNumWord (cs : Chars) : Bool :=
  match chomp1 isCjkNumeral cs with
  | none => false
  | some r1 =>
    need1 isWordChar ((chompOne (fun c => c = '、' || c = '.') r1).dropWhile pyIsSpaceChar)

/-- Matcher for `^\d+[、.]?\s*\w+`. -/
def reNumCjkWord (cs : Chars) : Bool :=
  match chomp1 pyIsDigitChar cs with
  | none => false
  | some r1 =>
    need1 isWordChar ((chompOne (fun c => c = '、' || c = '.') r1).dropWhile pyIsSpaceChar)

/-- Matcher for `^第[一二三四五六七八九十\d]+[章节部分]\s*\w+`. -/
def reCjkChapterWord (cs : Chars) : Bool :=
  match chompChar '第' cs with
  | none => false
  | some r1 =>
    match chomp1 (fun c => isCjkNumeral c || pyIsDigitChar c) r1 with
    | none => false
    | some r2 =>
      match r2 with
      | [] => false
      | c :: r3 =>
        decide (c ∈ "章节部分".data) && need1 isWordChar (r3.dropWhile pyIsSpaceChar)

/-- Matcher for `^[①②③④⑤⑥⑦⑧⑨⑩]\s*\w+`. -/
def reCircledWord (cs : Chars) : Bool :=
  match cs with
  | [] => false
  | c :: rest =>
    decide (c ∈ "①②③④⑤⑥⑦⑧⑨⑩".data) && need1 isWordChar (rest.dropWhile pyIsSpaceChar)

/-- The `self.number_patterns` table applied to a text, embedding
`_has_numbering` (with its `.get(script, latin)` fallback). -/
def hasNumbering (text : Chars) (script : String) : Bool :=
  if script = "cyrillic" then
    reNumWord text || reSubNumWord text ||
    reKeywordNum (["глава", "раздел", "часть", "приложение"].map String.data)
      pyIsDigitChar text
  else if script = "arabic" then
    reArabicNumWord text || reNumWord text ||
    reKeywordNum (["فصل", "قسم", "جزء", "ملحق"].map String.data)
      (fun c => pyIsDigitChar c || isArabicIndicDigit c) text
  else if script = "cjk" then
    reCjkNumWord text || reNumCjkWord text || reCjkChapterWord text || reCircledWord text
  else
    reNumWord text || reSubNumWord text || reRomanWord text || reLetterWord text ||
    reKeywordNum (["chapter", "section", "part", "appendix"].map String.data)
      pyIsDigitChar text

/-- Letter class `[A-Za-zЀ-ӿ؀-ۿ]` of the level-assignment
numbering patterns. -/
def isLevelLetter (c : Char) : Bool :=
  isAsciiAlpha c
  || (decide (0x400 ≤ c.toNat) && decide (c.toNat ≤ 0x4FF))
  || (decide (0x600 ≤ c.toNat) && decide (c.toNat ≤ 0x6FF))

/-- Matcher for `^[一二三四五六七八九十\d]+[、.]?\s*` from `_is_major_section`:
the optional suffix parts can match empty, so the pattern succeeds exactly
when the text starts with an ideographic numeral or digit. -/
def reCjkMajorNum (cs : Chars) : Bool :=
  need1 (fun c => isCjkNumeral c || pyIsDigitChar c) cs

/-- Matcher for `^\d+\.?\s+[A-Za-zЀ-ӿ؀-ۿ]` from
`_is_major_section`. -/
def reWestMajorNum (cs : Chars) : Bool :=
  match chomp1 pyIsDigitChar cs with
  | none => false
  | some r1 =>
    match chomp1 pyIsSpaceChar (chompOne (fun c => c = '.') r1) with
    | none => false
    | some r2 => need1 isLevelLetter r2

/-- Matcher for `^\d+\.\d+\.?\s+[A-Za-zЀ-ӿ؀-ۿ]` from
`_is_subsection`. -/
def reSubsectionNum (cs : Chars) : Bool :=
  match chomp1 pyIsDigitChar cs with
  | none => false
  | some r1 =>
    match chompChar '.' r1 with
    | none => false
    | some r2 =>
      match chomp1 pyIsDigitChar r2 with
      | none => false
      | some r3 =>
        match chomp1 pyIsSpaceChar (chompOne (fun c => c = '.') r3) with
        | none => false
        | some r4 => need1 isLevelLetter r4

/-- Month names of the date pattern in `_obviously_not_title`. -/
def monthNames : List Chars :=
  ["january", "february", "march", "april", "may", "june", "july", "august",
   "september", "october", "november", "december",
   "enero", "febrero", "marzo", "abril", "mayo", "junio", "julio", "agosto",
   "septiembre", "octubre", "noviembre", "diciembre"].map String.data

/-- Matcher for `^(month...)\s+\d{1,2},?\s+\d{4}` applied to lower-cased
text (the month literals are already lower-case there). -/
def reDateLike (cs : Chars) : Bool :=
  monthNames.any (fun m =>
    match chompLit m cs with
    | none => false
    | some r1 =>
      match chomp1 pyIsSpaceChar r1 with
      | none => false
      | some r2 =>
        match r2 with
        | [] => false
        | d1 :: r3 =>
          if pyIsDigitChar d1 then
            let r4 := match r3 with
                      | d2 :: r3' => if pyIsDigitChar d2 then r3' else r3
                      | [] => ([] : Chars)
            match chomp1 pyIsSpaceChar (chompOne (fun c => c = ',') r4) with
            | none => false
            | some r5 =>
              match r5 with
              | a :: b :: c :: d :: _ =>
                pyIsDigitChar a && pyIsDigitChar b && pyIsDigitChar c && pyIsDigitChar d
              | _ => false
          else false)

/-!
Block builder.  Spans, pages and raw blocks model the data returned by the
external PyMuPDF collaborator (`page.get_text("dict")`); a page wrapped in
`Except` models a per-page extraction exception, which the source catches
and skips.  The redundant `bbox` entry of the Python block dict duplicates
the `x0`/`y0`/`x1`/`y1` fields and is therefore not modelled separately.
-/

/-- A PyMuPDF text span. -/
structure Span where
  text : Chars
  size : ℚ
  flags : Nat
  font : String
  x0 : ℚ
  y0 : ℚ
  x1 : ℚ
  y1 : ℚ
deriving DecidableEq

/-- A page rectangle. -/
structure PageRect where
  width : ℚ
  height : ℚ
deriving DecidableEq

/-- A line of spans from the page dictionary. -/
structure Line where
  spans : List Span
deriving DecidableEq

/-- A raw page-dictionary block; `lines = none` models a block without a
`"lines"` key (an image block), which the source skips. -/
structure RawBlock where
  lines : Option (List Line)
deriving DecidableEq

/-- A page: its rectangle and raw blocks. -/
structure PageData where
  rect : PageRect
  blocks : List RawBlock
deriving DecidableEq

/-- A document is a list of pages; an errored entry models a page whose
text extraction raises. -/
abbrev Doc := List (Except String PageData)

/-- A consolidated text block as built by `_make_text_block`. -/
structure Block where
  text : Chars
  page : Nat
  font_size : ℚ
  font_name : String
  flags : Nat
  x0 : ℚ
  y0 : ℚ
  x1 : ℚ
  y1 : ℚ
  page_width : ℚ
  page_height : ℚ
  char_count : Nat
  word_count : Nat
  line_height : ℚ
  script_type : String
deriving DecidableEq

/-- The `self.page_limit` constant. -/
def pageLimit : Nat := 50

/-- The `self.memory_threshold` constant. -/
def memoryThreshold : Nat := 1000

/-- Models Python `max` over a nonempty numeric list ( 0 for the empty list,
which no call site reaches). -/
def pyMaxQ : List ℚ → ℚ
  | [] => 0
  | x :: xs => xs.foldl (fun a b => if a < b then b else a) x

/-- Models Python `min` over a nonempty numeric list. -/
def pyMinQ : List ℚ → ℚ
  | [] => 0
  | x :: xs => xs.foldl (fun a b => if b < a then b else a) x

/-- The comparison key `(bbox[1], bbox[0])` of `_group_nearby_spans`.
Python's `sorted` is a stable sort; a stable sort's output is uniquely
determined by the total preorder, so the stable `List.insertionSort` below
computes exactly the list `sorted(spans, key=...)` returns. -/
def spanRel (a b : Span) : Prop :=
  a.y0 < b.y0 ∨ (a.y0 = b.y0 ∧ a.x0 ≤ b.x0)

instance : DecidableRel spanRel := fun a b => by unfold spanRel; infer_instance

/-- The grouping loop of `_group_nearby_spans`: `prev` is the previous span
in sorted order and `cur` the group being accumulated. -/
def groupLoop : Span → List Span → List Span → List (List Span)
  | _, cur, [] => [cur]
  | prev, cur, c :: rest =>
    if |c.y0 - prev.y0| < 5 ∧ |c.x0 - prev.x1| < 20 then
      groupLoop c (cur ++ [c]) rest
    else
      cur :: groupLoop c [c] rest

/-- Embeds `_group_nearby_spans`. -/
def groupNearbySpans (spans : List Span) : List (List Span) :=
  match List.insertionSort spanRel spans with
  | [] => []
  | s :: rest => groupLoop s [s] rest

/-- Embeds `_make_text_block`. -/
def makeTextBlock (spans : List Span) (pageNum : Nat) (rect : PageRect) : Option Block :=
  match spans with
  | [] => none
  | s0 :: rest =>
    let kept := spans.filter (fun sp => stripL sp.text ≠ [])
    let parts := kept.map (fun sp => nfc (stripL sp.text))
    if parts = [] then none
    else
      let fullText := joinSep [' '] parts
      let sizes := kept.map (fun sp => sp.size)
      some
        { text := fullText
          page := pageNum
          font_size := if sizes = [] then 12 else pyMaxQ sizes
          font_name := s0.font
          flags := kept.foldl (fun a sp => a ||| sp.flags) 0
          x0 := pyMinQ ((s0 :: rest).map (fun sp => sp.x0))
          y0 := pyMinQ ((s0 :: rest).map (fun sp => sp.y0))
          x1 := pyMaxQ ((s0 :: rest).map (fun sp => sp.x1))
          y1 := pyMaxQ ((s0 :: rest).map (fun sp => sp.y1))
          page_width := rect.width
          page_height := rect.height
          char_count := fullText.length
          word_count := (wordsL fullText).length
          line_height := pyMaxQ ((s0 :: rest).map (fun sp => sp.y1)) -
                         pyMinQ ((s0 :: rest).map (fun sp => sp.y0))
          script_type := getScriptType fullText }

/-- Embeds `_is_useful_text`. -/
def isUsefulText (text : Chars) : Bool :=
  if text = [] ∨ (stripL text).length < 2 then false
  else if 300 < text.length then false
  else if text.countP pyUsefulChar < 2 then false
  else true

/-- Embeds `_process_block_lines`. -/
def processBlockLines (lines : List Line) (pageNum : Nat) (rect : PageRect) : List Block :=
  (lines.map (fun line =>
    if line.spans = [] then []
    else
      (groupNearbySpans line.spans).filterMap (fun g =>
        match makeTextBlock g pageNum rect with
        | none => none
        | some b => if isUsefulText b.text then some b else none))).flatten

/-- The inner accumulation loop of `_get_text_blocks` over one page's raw
blocks; the `Bool` result records whether the memory cap fired (an early
`return blocks[:memory_threshold]`). -/
def pageLoop : List RawBlock → Nat → PageRect → List Block → List Block × Bool
  | [], _, _, acc => (acc, false)
  | r :: rs, pageIdx, rect, acc =>
    match r.lines with
    | none => pageLoop rs pageIdx rect acc
    | some lines =>
      let acc' := acc ++ processBlockLines lines pageIdx rect
      if memoryThreshold < acc'.length then (acc'.take memoryThreshold, true)
      else pageLoop rs pageIdx rect acc'

/-- The page loop of `_get_text_blocks`; an errored page is logged and
skipped by the source's per-page handler. -/
def docLoop : List (Except String PageData) → Nat → List Block → List Block
  | [], _, acc => acc
  | p :: ps, pageIdx, acc =>
    match p with
    | .error _ => docLoop ps (pageIdx + 1) acc
    | .ok page =>
      let r := pageLoop page.blocks pageIdx page.rect acc
      if r.2 then r.1 else docLoop ps (pageIdx + 1) r.1

/-- Embeds `_get_text_blocks`. -/
def getTextBlocks (doc : Doc) (pageCount : Nat) : List Block :=
  docLoop (doc.take pageCount) 0 []

/-- Embeds `_is_caps_text`. -/
def isCapsText (text : Chars) (script : String) : Bool :=
  if script = "arabic" ∨ script = "cjk" then false
  else if !pyIsUpperStr text then false
  else if !(5 ≤ text.length ∧ text.length ≤ 100) then false
  else if 15 < (wordsL text).length then false
  else true

/-- Embeds `_ends_with_colon`: the last character is in the script's ending
set and the text has at most 12 words. -/
def endsWithColon (text : Chars) (script : String) : Bool :=
  let endings : Chars :=
    if script = "arabic" then [':', '؛']
    else if script = "cjk" then [':', '：', '。']
    else [':']
  (match text.getLast? with
   | some c => decide (c ∈ endings)
   | none => false) && (wordsL text).length ≤ 12

/-- Embeds `_is_short_line`. -/
def isShortLine (text : Chars) (script : String) : Bool :=
  if script = "cjk" then 5 ≤ text.length && text.length ≤ 50
  else 3 ≤ (wordsL text).length && (wordsL text).length ≤ 15 && text.length ≤ 150

/-- The content-pattern membership lists of `_find_content_patterns`. -/
structure ContentInfo where
  numbered_items : List Block
  keywords : List Block
  caps_text : List Block
  colon_endings : List Block
  short_lines : List Block
deriving DecidableEq

/-- Embeds `_find_content_patterns`: each pattern list collects, in document
order, the blocks whose stripped text satisfies the pattern. -/
def findContentPatterns (blocks : List Block) (language : String) : ContentInfo :=
  { numbered_items := blocks.filter (fun b => hasNumbering (stripL b.text) b.script_type)
    keywords := blocks.filter (fun b => hasKeywords ((stripL b.text).map pyToLower) language)
    caps_text := blocks.filter (fun b => isCapsText (stripL b.text) b.script_type)
    colon_endings := blocks.filter (fun b => endsWithColon (stripL b.text) b.script_type)
    short_lines := blocks.filter (fun b => isShortLine (stripL b.text) b.script_type) }

/-- The layout bucket lists of `_analyze_layout`. -/
structure LayoutInfo where
  centered : List Block
  left_side : List Block
  right_side : List Block
  isolated : List Block
  top_of_page : List Block
deriving DecidableEq

/-- The seen-set loop of `dedupFirst`. -/
def dedupAux {α : Type} [DecidableEq α] : List α → List α → List α
  | [], _ => []
  | x :: xs, seen =>
    if x ∈ seen then dedupAux xs seen else x :: dedupAux xs (x :: seen)

/-- First-occurrence deduplication, modelling `defaultdict` insertion order
when grouping blocks by page (and `set` iteration over font sizes). -/
def dedupFirst {α : Type} [DecidableEq α] (l : List α) : List α := dedupAux l []

/-- The blocks of one page, in document order. -/
def blocksOfPage (blocks : List Block) (p : Nat) : List Block :=
  blocks.filter (fun b => b.page = p)

/-- The `page_width` the source reads off the first block of a page. -/
def pageWidthOf (blocks : List Block) (p : Nat) : ℚ :=
  match blocksOfPage blocks p with
  | [] => 0
  | b :: _ => b.page_width

/-- The centered test of `_analyze_layout`. -/
def isCenteredIn (b : Block) (pw : ℚ) : Bool :=
  decide (|(b.x0 + b.x1) / 2 - pw / 2| < pw * (15 / 100))

/-- Embeds `_analyze_layout`: buckets are gathered page by page in page
first-occurrence order; `left`/`right` apply only when the block is not
centered, `top_of_page` is independent, and `isolated` counts distinct
blocks of the page within 30 vertical units. -/
def analyzeLayout (blocks : List Block) : LayoutInfo :=
  let ps := dedupFirst (blocks.map (fun b => b.page))
  { centered := (ps.map (fun p =>
      (blocksOfPage blocks p).filter (fun b => isCenteredIn b (pageWidthOf blocks p)))).flatten
    left_side := (ps.map (fun p =>
      (blocksOfPage blocks p).filter (fun b =>
        !isCenteredIn b (pageWidthOf blocks p) &&
        decide (b.x0 < pageWidthOf blocks p * (1 / 5))))).flatten
    right_side := (ps.map (fun p =>
      (blocksOfPage blocks p).filter (fun b =>
        !isCenteredIn b (pageWidthOf blocks p) &&
        !decide (b.x0 < pageWidthOf blocks p * (1 / 5)) &&
        decide (pageWidthOf blocks p * (4 / 5) < b.x1)))).flatten
    isolated := (ps.map (fun p =>
      let pbs := blocksOfPage blocks p
      pbs.filter (fun b =>
        pbs.countP (fun o => decide (o ≠ b) && decide (|o.y0 - b.y0| < 30)) ≤ 1))).flatten
    top_of_page := (ps.map (fun p =>
      (blocksOfPage blocks p).filter (fun b => decide (b.y0 < 150)))).flatten }

/-- Ascending order on font sizes (Python `sorted(font_sizes)`). -/
def qAsc (a b : ℚ) : Prop := a ≤ b

instance : DecidableRel qAsc := fun a b => by unfold qAsc; infer_instance

/-- Descending order for `sorted(..., reverse=True)`. -/
def qDesc (a b : ℚ) : Prop := b ≤ a

instance : DecidableRel qDesc := fun a b => by unfold qDesc; infer_instance

/-- The font statistics dictionary of `_analyze_structure`. -/
structure FontInfo where
  average : ℚ
  median : ℚ
  largest : ℚ
  smallest : ℚ
  p75 : ℚ
  p90 : ℚ
  p95 : ℚ
  all_sizes : List ℚ
  size_counts : List (ℚ × Nat)
  common_font : String
deriving DecidableEq

/-- Models `collections.Counter` construction in first-insertion order. -/
def counterOf {α : Type} [DecidableEq α] (l : List α) : List (α × Nat) :=
  l.foldl (fun acc x => bumpCount x acc) []

/-- Models `Counter.most_common(1)[0][0]`: the first-inserted key of maximal
count (`most_common` sorts stably by descending count). -/
def mostCommonKey {α : Type} (counts : List (α × Nat)) (dflt : α) : α :=
  match counts with
  | [] => dflt
  | e :: rest => (firstMax rest e).1

/-- The full structure-analysis result of `_analyze_structure` on a
nonempty block list. -/
structure StructData where
  fonts : FontInfo
  content : ContentInfo
  layout : LayoutInfo
  language : String
  block_count : Nat
deriving DecidableEq

/-- The `font_sizes` list of `_analyze_structure`. -/
def blockSizes (blocks : List Block) : List ℚ :=
  blocks.map (fun b => b.font_size)

/-- The `sorted_sizes` list of `_analyze_structure` (Python `sorted`, a
stable sort; see `spanRel` on why `insertionSort` computes the same
list). -/
def sortedSizes (blocks : List Block) : List ℚ :=
  List.insertionSort qAsc (blockSizes blocks)

/-- Embeds `_analyze_structure`; `none` models the empty dict returned for
an empty block list.  The percentile indices `int(n * 0.75)`,
`int(n * 0.90)` and `int(n * 0.95)` are the floors `3n/4`, `9n/10` and
`19n/20`: the double products round to a value with the same floor for every
feasible block count.  `sorted_sizes[-1]` is the entry at index `n - 1`. -/
def analyzeStructure (blocks : List Block) (language : String) : Option StructData :=
  match blocks with
  | [] => none
  | _ =>
    some
      { fonts :=
          { average := (blockSizes blocks).sum / (blocks.length : ℚ)
            median := (sortedSizes blocks).getD (blocks.length / 2) 0
            largest := pyMaxQ (blockSizes blocks)
            smallest := pyMinQ (blockSizes blocks)
            p75 := if 4 < blocks.length then (sortedSizes blocks).getD (3 * blocks.length / 4) 0
                   else (sortedSizes blocks).getD (blocks.length - 1) 0
            p90 := if 10 < blocks.length then (sortedSizes blocks).getD (9 * blocks.length / 10) 0
                   else (sortedSizes blocks).getD (blocks.length - 1) 0
            p95 := if 20 < blocks.length then (sortedSizes blocks).getD (19 * blocks.length / 20) 0
                   else (sortedSizes blocks).getD (blocks.length - 1) 0
            all_sizes := List.insertionSort qDesc (dedupFirst (blockSizes blocks))
            size_counts := counterOf (blockSizes blocks)
            common_font := mostCommonKey (counterOf (blocks.map (fun b => b.font_name))) "" }
        content := findContentPatterns blocks language
        layout := analyzeLayout blocks
        language := language
        block_count := blocks.length }

/-- Embeds `_is_bold`: bit 4 of the style flags. -/
def isBold (b : Block) : Bool := b.flags &&& 16 ≠ 0

/-- Embeds `_obviously_not_title` (the argument is the raw block text,
stripped or not exactly as each call site passes it). -/
def obviouslyNotTitle (text : Chars) (language : String) : Bool :=
  let tl := text.map pyToLower
  if (["www.", "http", "@", ".com", ".org"].map String.data).any
      (fun p => containsSub tl p) then true
  else if (stripL text).length < 3 then true
  else if (language = "english" ∨ language = "spanish" ∨
           language = "french" ∨ language = "german") && reDateLike tl then true
  else false

/-- Models Python `max(xs, key=f)` over `x :: xs` with a rational key: the
first element attaining the maximum wins. -/
def firstMaxByQ {α : Type} (f : α → ℚ) (x : α) : List α → α
  | [] => x
  | y :: ys => if f x < f y then firstMaxByQ f y ys else firstMaxByQ f x ys

/-- Centered-bucket membership test used by the scorers
(`block in structure.get('layout', {}).get('centered', [])`). -/
def inCentered (st : Option StructData) (b : Block) : Bool :=
  match st with
  | none => false
  | some sd => decide (b ∈ sd.layout.centered)

/-- Top-of-page-bucket membership test. -/
def inTopOfPage (st : Option StructData) (b : Block) : Bool :=
  match st with
  | none => false
  | some sd => decide (b ∈ sd.layout.top_of_page)

/-- Isolated-bucket membership test. -/
def inIsolated (st : Option StructData) (b : Block) : Bool :=
  match st with
  | none => false
  | some sd => decide (b ∈ sd.layout.isolated)

/-- Numbered-pattern membership test. -/
def inNumbered (st : Option StructData) (b : Block) : Bool :=
  match st with
  | none => false
  | some sd => decide (b ∈ sd.content.numbered_items)

/-- Keyword-pattern membership test. -/
def inKeywords (st : Option StructData) (b : Block) : Bool :=
  match st with
  | none => false
  | some sd => decide (b ∈ sd.content.keywords)

/-- Caps-pattern membership test. -/
def inCaps (st : Option StructData) (b : Block) : Bool :=
  match st with
  | none => false
  | some sd => decide (b ∈ sd.content.caps_text)

/-- Colon-ending-pattern membership test. -/
def inColon (st : Option StructData) (b : Block) : Bool :=
  match st with
  | none => false
  | some sd => decide (b ∈ sd.content.colon_endings)

/-- Embeds `_score_title_candidate`. -/
def scoreTitleCandidate (b : Block) (st : Option StructData) (language : String) : ℚ :=
  let text := stripL b.text
  let sFont : ℚ :=
    match st with
    | none => 0
    | some sd =>
      if sd.fonts.p95 ≤ b.font_size then 3 / 10
      else if sd.fonts.p90 ≤ b.font_size then 1 / 5
      else 0
  let sBold : ℚ := if isBold b then 1 / 4 else 0
  let sCent : ℚ := if inCentered st b then 1 / 5 else 0
  let sTop : ℚ := if inTopOfPage st b then 3 / 20 else 0
  let sLen : ℚ :=
    if b.script_type = "cjk" then
      if 5 ≤ text.length ∧ text.length ≤ 50 then 1 / 10 else 0
    else
      let wc := (wordsL text).length
      if 3 ≤ wc ∧ wc ≤ 25 then 1 / 10
      else if 30 < wc then -(3 / 10)
      else 0
  let sAll : ℚ := if 10 ≤ text.length ∧ text.length ≤ 200 then 1 / 20 else 0
  if obviouslyNotTitle text language then 0
  else sFont + sBold + sCent + sTop + sLen + sAll

/-- The NFC-normalized, stripped, whitespace-collapsed title text computed
at the top of `_clean_title`. -/
def cleanedTitleText (title : Chars) : Chars := collapseWs (nfc (stripL title))

/-- Embeds `_clean_title` (whose `language` parameter the source never
reads). -/
def cleanTitle (title : Chars) (language : String) : Chars :=
  if getScriptType (cleanedTitleText title) = "cjk" then
    if 100 < (cleanedTitleText title).length then
      (cleanedTitleText title).take 100 ++ "...".data
    else cleanedTitleText title
  else
    if 200 < (cleanedTitleText title).length then
      if 30 < (wordsL (cleanedTitleText title)).length then
        joinSep [' '] ((wordsL (cleanedTitleText title)).take 30) ++ "...".data
      else cleanedTitleText title
    else cleanedTitleText title

/-- The `first_page` local of `_find_title`. -/
def firstPageBlocks (blocks : List Block) : List Block :=
  blocks.filter (fun b => b.page = 0)

/-- The scored title candidates of `_find_title` (score strictly above
0.3). -/
def titleCandidates (blocks : List Block) (st : Option StructData)
    (language : String) : List (Block × ℚ) :=
  (firstPageBlocks blocks).filterMap (fun b =>
    if (3 : ℚ) / 10 < scoreTitleCandidate b st language then
      some (b, scoreTitleCandidate b st language)
    else none)

/-- Embeds `_find_title`. -/
def findTitle (blocks : List Block) (st : Option StructData) (language : String) : Chars :=
  match blocks with
  | [] => []
  | _ =>
    if firstPageBlocks blocks = [] then []
    else
      match titleCandidates blocks st language with
      | [] =>
        match (firstPageBlocks blocks).filter (fun b => !obviouslyNotTitle b.text language) with
        | [] => []
        | v :: vs =>
          cleanTitle (firstMaxByQ (fun b => b.font_size) v vs).text language
      | c :: cs =>
        cleanTitle (firstMaxByQ (fun p => p.2) c cs).1.text language

/-- Embeds `_definitely_not_heading` (whose `language` parameter the source
never reads). -/
def definitelyNotHeading (text : Chars) (language : String) : Bool :=
  let tl := text.map pyToLower
  if (["office use only", "signature", "date", "remarks",
       "faxed to:", "e-mailed", "mailed", "couriered"].map String.data).any
      (fun t => containsSub tl t) then true
  else if getScriptType text = "cjk" then
    if 100 < text.length then true
    else decide ((text.countP pyUsefulChar : ℚ) < (text.length : ℚ) * (2 / 5))
  else if 30 < (wordsL text).length then true
  else decide ((text.countP pyUsefulChar : ℚ) < (text.length : ℚ) * (2 / 5))

/-- Embeds `_score_heading_candidate`. -/
def scoreHeadingCandidate (b : Block) (st : Option StructData) (language : String) : ℚ :=
  let text := stripL b.text
  let sFont : ℚ :=
    match st with
    | none => 0
    | some sd =>
      if sd.fonts.p90 ≤ b.font_size then 1 / 5
      else if sd.fonts.p75 ≤ b.font_size then 3 / 20
      else 0
  let sBold : ℚ := if isBold b then 1 / 4 else 0
  let sNum : ℚ := if inNumbered st b then 7 / 20 else 0
  let sKw : ℚ := if inKeywords st b then 3 / 10 else 0
  let sCaps : ℚ := if inCaps st b then 1 / 5 else 0
  let sColon : ℚ := if inColon st b then 1 / 4 else 0
  let sCent : ℚ := if inCentered st b then 3 / 20 else 0
  let sIsol : ℚ := if inIsolated st b then 1 / 5 else 0
  let sLen : ℚ :=
    if b.script_type = "cjk" then
      if 3 ≤ text.length ∧ text.length ≤ 30 then 1 / 10
      else if 50 < text.length then -(2 / 5)
      else 0
    else
      let wc := (wordsL text).length
      if 2 ≤ wc ∧ wc ≤ 15 then 1 / 10
      else if 25 < wc then -(2 / 5)
      else 0
  if definitelyNotHeading text language then 0
  else sFont + sBold + sNum + sKw + sCaps + sColon + sCent + sIsol + sLen

/-- The marker substrings that select "major section" words in
`_is_major_section`. -/
def majorMarkers : List Chars :=
  ["introduction", "overview", "summary", "background", "conclusion",
   "methodology", "results", "discussion", "references", "appendix",
   "abstract", "introducción", "resumen", "conclusión",
   "введение", "заключение", "مقدمة", "خاتمة", "引言", "结论"].map String.data

/-- The English fallback list of `_is_major_section`. -/
def majorFallback : List Chars :=
  ["introduction", "overview", "background", "summary",
   "conclusion", "methodology", "results", "discussion",
   "references", "appendix", "acknowledgments", "abstract"].map String.data

/-- The marker-filtered keyword list of `_is_major_section` for the
detected language, before the English fallback. -/
def majorWordsFor (language : String) : List Chars :=
  match lookupLang langKeywords language with
  | some ws => ws.filter (fun w => majorMarkers.any (fun m => containsSub w m))
  | none => []

/-- The `major_words` list of `_is_major_section` after the fallback. -/
def majorWords (language : String) : List Chars :=
  if majorWordsFor language = [] then majorFallback else majorWordsFor language

/-- Embeds `_is_major_section`: keyword containment on the lower-cased
stripped text, then the script-specific top-level numbering pattern on the
raw text, then the early-page bold large-font test. -/
def isMajorSection (textLower : Chars) (heading : Block) (language : String) : Bool :=
  if (majorWords language).any (fun w => containsSub textLower w) then true
  else if (if heading.script_type = "cjk" then reCjkMajorNum heading.text
           else reWestMajorNum heading.text) then true
  else heading.page ≤ 1 && isBold heading && decide ((14 : ℚ) ≤ heading.font_size)

/-- The marker substrings that select "subsection" words in
`_is_subsection`. -/
def subMarkers : List Chars :=
  ["objectives", "goals", "requirements", "specifications", "timeline",
   "approach", "evaluation", "criteria", "milestones", "objetivos",
   "цели", "требования", "أهداف", "متطلبات", "目标", "要求"].map String.data

/-- The English fallback list of `_is_subsection`. -/
def subFallback : List Chars :=
  ["objectives", "goals", "requirements", "specifications",
   "timeline", "approach", "evaluation", "criteria",
   "milestones", "deliverables", "scope", "limitations"].map String.data

/-- The marker-filtered keyword list of `_is_subsection` for the detected
language, before the English fallback. -/
def subWordsFor (language : String) : List Chars :=
  match lookupLang langKeywords language with
  | some ws => ws.filter (fun w => subMarkers.any (fun m => containsSub w m))
  | none => []

/-- The `sub_words` list of `_is_subsection` after the fallback. -/
def subWords (language : String) : List Chars :=
  if subWordsFor language = [] then subFallback else subWordsFor language

/-- Embeds `_is_subsection`: subsection keywords, then the script-specific
colon-ending test on the raw text, then the sub-numbering pattern. -/
def isSubsection (textLower : Chars) (heading : Block) (language : String) : Bool :=
  if (subWords language).any (fun w => containsSub textLower w) then true
  else if endsWithColon heading.text heading.script_type then true
  else reSubsectionNum heading.text

/-- Embeds the per-heading decision cascade of `_assign_levels`: default H3,
promoted to H1 before H2 is even tested. -/
def assignLevel (b : Block) (language : String) : String :=
  if isMajorSection ((stripL b.text).map pyToLower) b language then "H1"
  else if isSubsection ((stripL b.text).map pyToLower) b language then "H2"
  else "H3"

/-- Embeds `_assign_levels` (whose `structure` parameter the per-heading
cascade never reads): every surviving heading is paired with its level. -/
def assignLevels (headings : List Block) (st : Option StructData)
    (language : String) : List (Block × String) :=
  headings.map (fun b => (b, assignLevel b language))

/-- Embeds `_remove_title_matches`: word sets are Python sets of the words
of the NFC-normalized lower-cased texts, and a candidate survives when
either word set is empty or the Jaccard overlap is below 0.4. -/
def wordSet (cs : Chars) : Finset Chars := (wordsL cs).toFinset

/-- The overlap measure `|A∩B| / max(|A|,|B|)` of `_remove_title_matches`. -/
def jaccardSim (a b : Finset Chars) : ℚ :=
  ((a ∩ b).card : ℚ) / (max a.card b.card : ℚ)

/-- Embeds `_remove_title_matches`. -/
def removeTitleMatches (candidates : List (Block × ℚ)) (title : Chars) :
    List (Block × ℚ) :=
  if title = [] then candidates
  else
    candidates.filter (fun bs =>
      if wordSet (nfc (title.map pyToLower)) ≠ ∅ ∧
         wordSet (nfc (bs.1.text.map pyToLower)) ≠ ∅ then
        decide (jaccardSim (wordSet (nfc (title.map pyToLower)))
          (wordSet (nfc (bs.1.text.map pyToLower))) < 2 / 5)
      else true)

/-- Embeds `_is_valid_heading`. -/
def isValidHeading (b : Block) (language : String) : Bool :=
  if b.script_type = "cjk" then
    if !(2 ≤ (stripL b.text).length ∧ (stripL b.text).length ≤ 80) then false
    else !definitelyNotHeading (stripL b.text) language
  else
    if !(5 ≤ (stripL b.text).length ∧ (stripL b.text).length ≤ 250) then false
    else if 25 < (wordsL (stripL b.text)).length then false
    else !definitelyNotHeading (stripL b.text) language

/-- An emitted outline entry. -/
structure OutlineEntry where
  level : String
  text : Chars
  page : Nat
deriving DecidableEq

/-- Embeds `_format_headings`. -/
def formatHeadings (hs : List (Block × String)) : List OutlineEntry :=
  hs.map (fun bs => { level := bs.2, text := nfc (stripL bs.1.text), page := bs.1.page })

/-- The reading-order sort key `(page, y0)` of `_build_outline` (again a
stable sort under a total preorder, so `List.insertionSort` computes the
very list Python's stable `list.sort` produces). -/
def headingRel (a b : Block × String) : Prop :=
  a.1.page < b.1.page ∨ (a.1.page = b.1.page ∧ a.1.y0 ≤ b.1.y0)

instance : DecidableRel headingRel := fun a b => by unfold headingRel; infer_instance

instance : IsTotal (Block × String) headingRel :=
  ⟨by
    intro a b
    unfold headingRel
    rcases Nat.lt_trichotomy a.1.page b.1.page with h | h | h
    · exact Or.inl (Or.inl h)
    · rcases le_total a.1.y0 b.1.y0 with hy | hy
      · exact Or.inl (Or.inr ⟨h, hy⟩)
      · exact Or.inr (Or.inr ⟨h.symm, hy⟩)
    · exact Or.inr (Or.inl h)⟩

instance : IsTrans (Block × String) headingRel :=
  ⟨by
    intro a b c hab hbc
    unfold headingRel at hab hbc ⊢
    rcases hab with h1 | ⟨h1, hy1⟩ <;> rcases hbc with h2 | ⟨h2, hy2⟩
    · exact Or.inl (h1.trans h2)
    · exact Or.inl (h2 ▸ h1)
    · exact Or.inl (h1 ▸ h2)
    · exact Or.inr ⟨h1.trans h2, hy1.trans hy2⟩⟩

/-- The scored heading candidates of `_build_outline` (score strictly above
0.4). -/
def headingCandidates (blocks : List Block) (st : Option StructData)
    (language : String) : List (Block × ℚ) :=
  blocks.filterMap (fun b =>
    if (2 : ℚ) / 5 < scoreHeadingCandidate b st language then
      some (b, scoreHeadingCandidate b st language)
    else none)

/-- The surviving heading blocks of `_build_outline` after title
de-duplication and the validity gate. -/
def validHeadings (blocks : List Block) (st : Option StructData) (title : Chars)
    (language : String) : List Block :=
  let candidates := headingCandidates blocks st language
  let c2 := if title ≠ [] then removeTitleMatches candidates title else candidates
  (c2.filter (fun bs => isValidHeading bs.1 language)).map (fun bs => bs.1)

/-- The leveled surviving headings in reading order, just before
formatting. -/
def outlineBlocks (blocks : List Block) (st : Option StructData) (title : Chars)
    (language : String) : List (Block × String) :=
  List.insertionSort headingRel
    (assignLevels (validHeadings blocks st title language) st language)

/-- Embeds `_build_outline`. -/
def buildOutline (blocks : List Block) (st : Option StructData) (title : Chars)
    (language : String) : List OutlineEntry :=
  match blocks with
  | [] => []
  | _ =>
    if headingCandidates blocks st language = [] then []
    else if validHeadings blocks st title language = [] then []
    else formatHeadings (outlineBlocks blocks st title language)

/-- The character-sampling loop of `_guess_language` (1000-character
budget over the first 20 blocks). -/
def sampleLoop : List Block → Chars → Chars
  | [], s => s
  | b :: bs, s => if 1000 ≤ s.length then s else sampleLoop bs (s ++ (' ' :: b.text))

/-- Embeds `_guess_language`. -/
def guessLanguage (blocks : List Block) : String :=
  let sample := sampleLoop (blocks.take 20) []
  if sample = [] then "english"
  else
    match getScriptType sample with
    | "latin" => detectLatinLang (sample.map pyToLower)
    | "cyrillic" => detectCyrillicLang sample
    | "arabic" => detectArabicLang sample
    | "cjk" => detectCjkLang sample
    | _ => "english"

/-- The result dictionary of `extract_structure`. -/
structure ExtractResult where
  title : Chars
  outline : List OutlineEntry
deriving DecidableEq

/-- The empty result returned on failure or on an empty document. -/
def emptyResult : ExtractResult := { title := [], outline := [] }

/-- The `all_blocks` local of `extract_structure`: the text blocks of the
first `min(len(doc), page_limit)` pages. -/
def docBlocks (doc : Doc) : List Block :=
  getTextBlocks doc (min doc.length pageLimit)

/-- The `doc_lang` local of `extract_structure`. -/
def docLang (doc : Doc) : String := guessLanguage (docBlocks doc)

/-- The `structure_info` local of `extract_structure`. -/
def docStruct (doc : Doc) : Option StructData :=
  analyzeStructure (docBlocks doc) (docLang doc)

/-- The `title` local of `extract_structure`. -/
def docTitle (doc : Doc) : Chars :=
  findTitle (docBlocks doc) (docStruct doc) (docLang doc)

/-- Embeds `extract_structure`.  The `Except` input models the outcome of
`fitz.open` and page decoding: an exception anywhere in the body is caught
by the source's top-level handler and yields the empty result.  The soft
elapsed-time check only logs and does not alter the result. -/
def extractStructure (docR : Except String Doc) : ExtractResult :=
  match docR with
  | .error _ => emptyResult
  | .ok doc =>
    if docBlocks doc = [] then emptyResult
    else
      { title := docTitle doc
        outline := buildOutline (docBlocks doc) (docStruct doc) (docTitle doc) (docLang doc) }

/-- Embeds the batch loop of `process_all_pdfs`: each file is processed
independently (`save_output` is an external effect whose failures the
source also absorbs), so a failing file yields its empty result and the
loop continues with the next file. -/
def processAllPdfs (files : List (Except String Doc)) : List ExtractResult :=
  files.map extractStructure

/-!
Concrete inputs used by counterexamples and witnesses, and the reference
statistics definitions the spec's claims compare against.
-/

/-- A concrete bold block on page 0 with font size 16. -/
def boldIntroBlock : Block :=
  { text := "1. Introduction".data
    page := 0
    font_size := 16
    font_name := "Helvetica-Bold"
    flags := 16
    x0 := 100
    y0 := 90
    x1 := 250
    y1 := 110
    page_width := 612
    page_height := 792
    char_count := 15
    word_count := 2
    line_height := 20
    script_type := "latin" }

/-- The text of the spec's not-heading scenario. -/
def contactText : Chars := "Contact: info@example.com".data

/-- A bold size-16 span carrying the contact text. -/
def contactSpan : Span :=
  { text := contactText
    size := 16
    flags := 16
    font := "Helvetica-Bold"
    x0 := 100
    y0 := 100
    x1 := 300
    y1 := 116 }

/-- A one-page document whose only text block is the contact line. -/
def contactDoc : Doc :=
  [Except.ok
    { rect := { width := 612, height := 792 }
      blocks := [{ lines := some [{ spans := [contactSpan] }] }] }]

/-- A page-0 block with font size 10 (used for the font statistics
counterexample). -/
def statBlockA : Block :=
  { text := "alpha beta".data
    page := 0
    font_size := 10
    font_name := "Helvetica"
    flags := 0
    x0 := 100
    y0 := 200
    x1 := 200
    y1 := 212
    page_width := 612
    page_height := 792
    char_count := 10
    word_count := 2
    line_height := 12
    script_type := "latin" }

/-- A page-0 block with font size 20. -/
def statBlockB : Block :=
  { text := "gamma delta".data
    page := 0
    font_size := 20
    font_name := "Helvetica"
    flags := 0
    x0 := 100
    y0 := 300
    x1 := 220
    y1 := 324
    page_width := 612
    page_height := 792
    char_count := 11
    word_count := 2
    line_height := 24
    script_type := "latin" }

/-- Modelled from the spec: the reference mean of a sample. -/
def specMean (l : List ℚ) : ℚ := l.sum / (l.length : ℚ)

/-- Modelled from the spec: the reference median of a sample — the middle
element of the sorted sample for odd size, the average of the two middle
elements for even size.  Stated to compare `_analyze_structure`'s median
against the spec's words. -/
def specMedian (l : List ℚ) : ℚ :=
  if l.length % 2 = 1 then (List.insertionSort qAsc l).getD (l.length / 2) 0
  else ((List.insertionSort qAsc l).getD (l.length / 2 - 1) 0 +
        (List.insertionSort qAsc l).getD (l.length / 2) 0) / 2

/-!
Supporting lemmas.
-/

theorem space_pyToLower (c : Char) : pyIsSpaceChar (pyToLower c) = pyIsSpaceChar c := by
  unfold pyToLower
  rcases h : lowerTable.find? (fun p => p.1 = c) with _ | p
  · rw [h]
  · rw [h]
    have hmem := List.mem_of_find?_eq_some h
    have hp := List.find?_some h
    have hc : p.1 = c := by simpa using hp
    rw [← hc]
    have hall : ∀ q ∈ lowerTable, pyIsSpaceChar q.2 = pyIsSpaceChar q.1 := by decide
    exact hall p hmem

theorem mem_stripL {c : Char} {l : Chars} (h : c ∈ stripL l) : c ∈ l := by
  unfold stripL at h
  rw [List.mem_reverse] at h
  have h1 := (List.dropWhile_sublist (l := (l.dropWhile pyIsSpaceChar).reverse)
    pyIsSpaceChar).subset h
  rw [List.mem_reverse] at h1
  exact (List.dropWhile_sublist (l := l) pyIsSpaceChar).subset h1

theorem stripL_has_nonspace {l : Chars} (h : stripL l ≠ []) :
    ∃ c ∈ l, pyIsSpaceChar c = false := by
  unfold stripL at h
  have h2 : (l.dropWhile pyIsSpaceChar).reverse.dropWhile pyIsSpaceChar ≠ [] := by
    intro hx; exact h (by rw [hx]; rfl)
  refine ⟨((l.dropWhile pyIsSpaceChar).reverse.dropWhile pyIsSpaceChar).head h2, ?_, ?_⟩
  · have hm : ((l.dropWhile pyIsSpaceChar).reverse.dropWhile pyIsSpaceChar).head h2 ∈
        (l.dropWhile pyIsSpaceChar).reverse.dropWhile pyIsSpaceChar := List.head_mem h2
    have := (List.dropWhile_sublist (l := (l.dropWhile pyIsSpaceChar).reverse)
      pyIsSpaceChar).subset hm
    rw [List.mem_reverse] at this
    exact (List.dropWhile_sublist (l := l) pyIsSpaceChar).subset this
  · exact List.head_dropWhile_not pyIsSpaceChar _ h2

theorem wordsAux_eq_nil {cs : Chars} :
    ∀ {acc : Chars}, wordsAux cs acc = [] → acc = [] ∧ ∀ c ∈ cs, pyIsSpaceChar c = true := by
  induction cs with
  | nil =>
    intro acc h
    unfold wordsAux at h
    by_cases ha : acc = []
    · exact ⟨ha, by simp⟩
    · simp [ha] at h
  | cons c cs ih =>
    intro acc h
    unfold wordsAux at h
    by_cases hc : pyIsSpaceChar c
    · simp only [hc, if_true] at h
      by_cases ha : acc = []
      · simp only [ha, if_true] at h
        rcases ih h with ⟨_, hall⟩
        refine ⟨ha, ?_⟩
        intro x hx
        rcases List.mem_cons.mp hx with hx | hx
        · subst hx; exact hc
        · exact hall x hx
      · simp [ha] at h
    · simp only [hc, if_false] at h
      rcases ih h with ⟨ha, _⟩
      simp at ha

theorem wordsL_ne_nil {cs : Chars} (h : ∃ c ∈ cs, pyIsSpaceChar c = false) :
    wordsL cs ≠ [] := by
  intro hw
  rcases wordsAux_eq_nil hw with ⟨_, hall⟩
  rcases h with ⟨c, hc, hns⟩
  rw [hall c hc] at hns
  cases hns

theorem wordsAux_all_space {sp : Chars} (h : ∀ c ∈ sp, pyIsSpaceChar c = true) :
    ∀ acc : Chars, wordsAux sp acc = if acc = [] then [] else [acc.reverse] := by
  induction sp with
  | nil => intro acc; rfl
  | cons c cs ih =>
    intro acc
    have hc : pyIsSpaceChar c = true := h c (by simp)
    have h' : ∀ x ∈ cs, pyIsSpaceChar x = true := fun x hx => h x (by simp [hx])
    unfold wordsAux
    rw [hc]
    simp only [if_true]
    by_cases ha : acc = []
    · simp only [ha, if_true]
      rw [ih h']
      simp
    · simp only [ha, if_false]
      rw [ih h']
      simp

theorem wordsAux_append_space {sp : Chars} (hsp : ∀ c ∈ sp, pyIsSpaceChar c = true) :
    ∀ (xs acc : Chars), wordsAux (xs ++ sp) acc = wordsAux xs acc := by
  intro xs
  induction xs with
  | nil =>
    intro acc
    rw [List.nil_append, wordsAux_all_space hsp acc]
    rfl
  | cons x xs ih =>
    intro acc
    rw [List.cons_append]
    unfold wordsAux
    by_cases hx : pyIsSpaceChar x
    · simp only [hx, if_true]
      by_cases ha : acc = []
      · simp only [ha, if_true, ih]
      · simp only [ha, if_false, ih]
    · simp only [hx, if_false, ih]

theorem wordsAux_dropWhile (l : Chars) :
    wordsAux (l.dropWhile pyIsSpaceChar) [] = wordsAux l [] := by
  induction l with
  | nil => rfl
  | cons c cs ih =>
    by_cases hc : pyIsSpaceChar c
    · rw [List.dropWhile_cons_of_pos hc, ih]
      conv_rhs => unfold wordsAux
      simp [hc]
    · rw [List.dropWhile_cons_of_neg (by simpa using hc)]

theorem wordsL_stripL (l : Chars) : wordsL (stripL l) = wordsL l := by
  unfold wordsL
  have hdecomp :
      stripL l ++ ((l.dropWhile pyIsSpaceChar).reverse.takeWhile pyIsSpaceChar).reverse =
        l.dropWhile pyIsSpaceChar := by
    unfold stripL
    rw [← List.reverse_append, List.takeWhile_append_dropWhile, List.reverse_reverse]
  have hsp : ∀ c ∈ ((l.dropWhile pyIsSpaceChar).reverse.takeWhile pyIsSpaceChar).reverse,
      pyIsSpaceChar c = true := by
    intro c hc
    rw [List.mem_reverse] at hc
    exact List.mem_takeWhile_imp hc
  rw [← wordsAux_dropWhile l, ← hdecomp, wordsAux_append_space hsp]

theorem stripL_map_lower (t : Chars) :
    stripL (t.map pyToLower) = (stripL t).map pyToLower := by
  have hcomp : (pyIsSpaceChar ∘ pyToLower) = pyIsSpaceChar := by
    funext c
    exact space_pyToLower c
  have hrm : ∀ l : Chars, (l.map pyToLower).reverse = l.reverse.map pyToLower := by
    intro l
    rw [List.map_reverse]
  unfold stripL
  rw [List.dropWhile_map, hcomp, hrm, List.dropWhile_map, hcomp, hrm]

theorem wordSet_lower_strip (t : Chars) :
    wordSet (nfc ((stripL t).map pyToLower)) = wordSet (nfc (t.map pyToLower)) := by
  unfold nfc wordSet
  rw [← stripL_map_lower]
  unfold wordsL
  rw [← wordsAux_dropWhile (t.map pyToLower)]
  have := wordsL_stripL (t.map pyToLower)
  unfold wordsL at this
  rw [this, wordsAux_dropWhile]

theorem wordSet_lower_ne_empty {t : Chars} (h : ∃ c ∈ t, pyIsSpaceChar c = false) :
    wordSet (nfc (t.map pyToLower)) ≠ ∅ := by
  rcases h with ⟨c, hc, hns⟩
  have hmem : pyToLower c ∈ t.map pyToLower := List.mem_map_of_mem pyToLower hc
  have hns' : pyIsSpaceChar (pyToLower c) = false := by rw [space_pyToLower]; exact hns
  have hwne : wordsL (t.map pyToLower) ≠ [] := wordsL_ne_nil ⟨pyToLower c, hmem, hns'⟩
  unfold wordSet nfc
  intro hempty
  rcases List.exists_mem_of_ne_nil _ hwne with ⟨w, hw⟩
  have : w ∈ (wordsL (t.map pyToLower)).toFinset := List.mem_toFinset.mpr hw
  rw [hempty] at this
  exact absurd this (Finset.not_mem_empty w)

theorem collapseWs_nonspace {cs : Chars} {c : Char} (hh : cs.head? = some c)
    (hns : pyIsSpaceChar c = false) :
    ∃ d ∈ collapseWs cs, pyIsSpaceChar d = false := by
  rcases cs with _ | ⟨a, rest⟩
  · simp at hh
  · have hac : a = c := by simpa using hh
    subst hac
    refine ⟨a, ?_, hns⟩
    unfold collapseWs collapseAux
    rw [hns]
    simp

theorem collapseWs_eq_nil {cs : Chars} (h : collapseWs cs = []) : cs = [] := by
  rcases cs with _ | ⟨c, rest⟩
  · rfl
  · unfold collapseWs collapseAux at h
    by_cases hc : pyIsSpaceChar c <;> simp [hc] at h

theorem dropWhile_head?_not (p : Char → Bool) (l : Chars) {c : Char}
    (h : (l.dropWhile p).head? = some c) : p c = false := by
  induction l with
  | nil => simp at h
  | cons a as ih =>
    by_cases hp : p a
    · rw [List.dropWhile_cons_of_pos hp] at h
      exact ih h
    · rw [List.dropWhile_cons_of_neg (by simpa using hp)] at h
      have hac : a = c := by simpa using h
      subst hac
      simpa using hp

theorem stripL_head?_nonspace {l : Chars} (h : stripL l ≠ []) :
    ∃ c, (stripL l).head? = some c ∧ pyIsSpaceChar c = false := by
  have hdecomp :
      stripL l ++ ((l.dropWhile pyIsSpaceChar).reverse.takeWhile pyIsSpaceChar).reverse =
        l.dropWhile pyIsSpaceChar := by
    unfold stripL
    rw [← List.reverse_append, List.takeWhile_append_dropWhile, List.reverse_reverse]
  rcases hs : stripL l with _ | ⟨c, cs⟩
  · exact absurd hs h
  · refine ⟨c, by simp, ?_⟩
    apply dropWhile_head?_not pyIsSpaceChar l
    rw [← hdecomp, hs]
    simp

theorem cleanedTitleText_has_nonspace {t : Chars} (h : cleanedTitleText t ≠ []) :
    ∃ c ∈ cleanedTitleText t, pyIsSpaceChar c = false := by
  have hsne : stripL t ≠ [] := by
    intro h0
    apply h
    unfold cleanedTitleText nfc
    rw [h0]
    rfl
  rcases stripL_head?_nonspace hsne with ⟨c, hc, hcns⟩
  exact collapseWs_nonspace hc hcns

theorem cleanTitle_has_nonspace {t : Chars} {lang : String}
    (h : cleanTitle t lang ≠ []) :
    ∃ c ∈ cleanTitle t lang, pyIsSpaceChar c = false := by
  have hdot : pyIsSpaceChar '.' = false := by decide
  have hdotmem : ∀ l : Chars, '.' ∈ l ++ "...".data := by
    intro l
    apply List.mem_append_right
    decide
  unfold cleanTitle at h ⊢
  by_cases h1 : getScriptType (cleanedTitleText t) = "cjk"
  · by_cases h2 : 100 < (cleanedTitleText t).length
    · simp only [h1, h2, if_true] at h ⊢
      exact ⟨'.', hdotmem _, hdot⟩
    · simp only [h1, h2, if_true, if_false] at h ⊢
      exact cleanedTitleText_has_nonspace h
  · by_cases h2 : 200 < (cleanedTitleText t).length
    · by_cases h3 : 30 < (wordsL (cleanedTitleText t)).length
      · simp only [h1, h2, h3, if_true, if_false] at h ⊢
        exact ⟨'.', hdotmem _, hdot⟩
      · simp only [h1, h2, h3, if_true, if_false] at h ⊢
        exact cleanedTitleText_has_nonspace h
    · simp only [h1, h2, if_false] at h ⊢
      exact cleanedTitleText_has_nonspace h

theorem foldlMax_bounds (l : List ℚ) (a : ℚ) :
    (a ≤ l.foldl (fun u v => if u < v then v else u) a) ∧
    (∀ x ∈ l, x ≤ l.foldl (fun u v => if u < v then v else u) a) := by
  induction l generalizing a with
  | nil => exact ⟨le_refl a, by simp⟩
  | cons b bs ih =>
    have hstep : a ≤ (if a < b then b else a) ∧ b ≤ (if a < b then b else a) := by
      split
      · exact ⟨le_of_lt (by assumption), le_refl b⟩
      · exact ⟨le_refl a, le_of_not_lt (by assumption)⟩
    constructor
    · exact le_trans hstep.1 (ih (if a < b then b else a)).1
    · intro x hx
      rcases List.mem_cons.mp hx with hx | hx
      · rw [hx]
        exact le_trans hstep.2 (ih (if a < b then b else a)).1
      · exact (ih (if a < b then b else a)).2 x hx

theorem foldlMax_mem (l : List ℚ) (a : ℚ) :
    l.foldl (fun u v => if u < v then v else u) a = a ∨
    l.foldl (fun u v => if u < v then v else u) a ∈ l := by
  induction l generalizing a with
  | nil => exact Or.inl rfl
  | cons b bs ih =>
    rcases ih (if a < b then b else a) with h | h
    · rw [List.foldl_cons, h]
      split
      · exact Or.inr (by simp)
      · exact Or.inl rfl
    · exact Or.inr (List.mem_cons_of_mem b h)

theorem pyMaxQ_mem {l : List ℚ} (h : l ≠ []) : pyMaxQ l ∈ l := by
  rcases l with _ | ⟨x, xs⟩
  · exact absurd rfl h
  · show xs.foldl (fun a b => if a < b then b else a) x ∈ x :: xs
    rcases foldlMax_mem xs x with h1 | h1
    · rw [h1]; simp
    · exact List.mem_cons_of_mem x h1

theorem le_pyMaxQ {l : List ℚ} {x : ℚ} (hx : x ∈ l) : x ≤ pyMaxQ l := by
  rcases l with _ | ⟨a, as⟩
  · simp at hx
  · show x ≤ as.foldl (fun u v => if u < v then v else u) a
    rcases List.mem_cons.mp hx with h | h
    · subst h; exact (foldlMax_bounds as x).1
    · exact (foldlMax_bounds as a).2 x h

instance : IsTotal ℚ qAsc := ⟨fun a b => le_total a b⟩

instance : IsTrans ℚ qAsc := ⟨fun _ _ _ hab hbc => le_trans hab hbc⟩

theorem sortedLast_eq_pyMaxQ {l : List ℚ} (h : l ≠ []) :
    (List.insertionSort qAsc l).getD (l.length - 1) 0 = pyMaxQ l := by
  have hperm := List.perm_insertionSort qAsc l
  have hlen : (List.insertionSort qAsc l).length = l.length := hperm.length_eq
  have hlpos : 0 < l.length := List.length_pos.mpr h
  have hidx : l.length - 1 < (List.insertionSort qAsc l).length := by omega
  rw [List.getD_eq_getElem _ _ hidx]
  have hsorted := List.sorted_insertionSort qAsc l
  have hmax : ∀ x ∈ List.insertionSort qAsc l,
      x ≤ (List.insertionSort qAsc l)[l.length - 1] := by
    intro x hx
    rcases List.mem_iff_getElem.mp hx with ⟨i, hi, hxi⟩
    rcases Nat.lt_or_ge i (l.length - 1) with hlt | hge
    · have := List.pairwise_iff_getElem.mp hsorted i (l.length - 1) hi hidx hlt
      rw [← hxi]
      exact this
    · have : i = l.length - 1 := by omega
      subst this
      rw [← hxi]
  apply le_antisymm
  · apply le_pyMaxQ
    exact hperm.subset (List.getElem_mem hidx)
  · apply hmax
    exact hperm.symm.subset (pyMaxQ_mem h)

theorem scriptCounts_fold_inv {s : String} :
    ∀ (cs : Chars) (acc : List (String × Nat)),
      (∀ c ∈ cs, scriptSkip c = false → charClass c = s) →
      (acc = [] ∨ ∃ k, 0 < k ∧ acc = [(s, k)]) →
      (cs.foldl (fun a c => if scriptSkip c then a else bumpCount (charClass c) a) acc = []
        → (acc = [] ∧ ∀ c ∈ cs, scriptSkip c = true)) ∧
      (cs.foldl (fun a c => if scriptSkip c then a else bumpCount (charClass c) a) acc = []
        ∨ ∃ k, 0 < k ∧
          cs.foldl (fun a c => if scriptSkip c then a else bumpCount (charClass c) a) acc
            = [(s, k)]) := by
  intro cs
  induction cs with
  | nil =>
    intro acc _ hinv
    exact ⟨fun h => ⟨h, by simp⟩, hinv⟩
  | cons c cs ih =>
    intro acc hall hinv
    have hall' : ∀ x ∈ cs, scriptSkip x = false → charClass x = s :=
      fun x hx => hall x (List.mem_cons_of_mem c hx)
    by_cases hc : scriptSkip c
    · have hstep :
          (c :: cs).foldl (fun a d => if scriptSkip d then a else bumpCount (charClass d) a)
            acc =
          cs.foldl (fun a d => if scriptSkip d then a else bumpCount (charClass d) a) acc := by
        rw [List.foldl_cons, if_pos hc]
      rw [hstep]
      rcases ih acc hall' hinv with ⟨he, hi⟩
      refine ⟨fun h => ?_, hi⟩
      rcases he h with ⟨ha, hrest⟩
      refine ⟨ha, ?_⟩
      intro x hx
      rcases List.mem_cons.mp hx with hx | hx
      · subst hx; exact hc
      · exact hrest x hx
    · have hcs : charClass c = s := hall c (by simp) (by simpa using hc)
      have hbump : bumpCount (charClass c) acc = [(s, 1)] ∨
          ∃ k, 0 < k ∧ bumpCount (charClass c) acc = [(s, k + 1)] := by
        rcases hinv with ha | ⟨k, hk, ha⟩
        · subst ha
          rw [hcs]
          exact Or.inl rfl
        · subst ha
          rw [hcs]
          unfold bumpCount
          rw [if_pos rfl]
          exact Or.inr ⟨k, hk, rfl⟩
      have hinv' : bumpCount (charClass c) acc = [] ∨
          ∃ k, 0 < k ∧ bumpCount (charClass c) acc = [(s, k)] := by
        rcases hbump with hb | ⟨k, _, hb⟩
        · exact Or.inr ⟨1, by omega, hb⟩
        · exact Or.inr ⟨k + 1, by omega, hb⟩
      have hstep :
          (c :: cs).foldl (fun a d => if scriptSkip d then a else bumpCount (charClass d) a)
            acc =
          cs.foldl (fun a d => if scriptSkip d then a else bumpCount (charClass d) a)
            (bumpCount (charClass c) acc) := by
        rw [List.foldl_cons, if_neg (by simpa using hc)]
      rw [hstep]
      rcases ih (bumpCount (charClass c) acc) hall' hinv' with ⟨he, hi⟩
      refine ⟨fun h => ?_, hi⟩
      rcases he h with ⟨ha, _⟩
      rcases hbump with hb | ⟨k, _, hb⟩ <;> rw [hb] at ha <;> cases ha

theorem getScriptType_homog {cs : Chars} {s : String} (hne : cs ≠ [])
    (hev : ∃ c ∈ cs, scriptSkip c = false)
    (hall : ∀ c ∈ cs, scriptSkip c = false → charClass c = s) :
    getScriptType cs = s := by
  rcases scriptCounts_fold_inv cs [] hall (Or.inl rfl) with ⟨he, hi⟩
  have hcounts : ∃ k, 0 < k ∧ scriptCounts cs = [(s, k)] := by
    rcases hi with h0 | hk
    · rcases he h0 with ⟨_, hallskip⟩
      rcases hev with ⟨c, hc, hcf⟩
      rw [hallskip c hc] at hcf
      cases hcf
    · exact hk
  rcases hcounts with ⟨k, _, hk⟩
  have hk' : scriptCounts cs = [(s, k)] := hk
  unfold getScriptType
  rw [if_neg (by simpa using hne), hk']
  rfl

theorem foldl_skip_all :
    ∀ (cs : Chars), (∀ c ∈ cs, scriptSkip c = true) →
      ∀ (acc : List (String × Nat)),
        cs.foldl (fun a c => if scriptSkip c then a else bumpCount (charClass c) a) acc
          = acc := by
  intro cs
  induction cs with
  | nil => intro _ acc; rfl
  | cons c cs ih =>
    intro hall acc
    rw [List.foldl_cons, if_pos (hall c (by simp))]
    exact ih (fun x hx => hall x (List.mem_cons_of_mem c hx)) acc

theorem getScriptType_all_skip {cs : Chars} (hne : cs ≠ [])
    (hall : ∀ c ∈ cs, scriptSkip c = true) :
    getScriptType cs = "latin" := by
  have h0 : scriptCounts cs = [] := foldl_skip_all cs hall []
  unfold getScriptType
  rw [if_neg (by simpa using hne), h0]

theorem mem_headingCandidates {blocks : List Block} {st : Option StructData}
    {language : String} {bs : Block × ℚ}
    (h : bs ∈ headingCandidates blocks st language) :
    bs.1 ∈ blocks ∧ bs.2 = scoreHeadingCandidate bs.1 st language ∧
      (2 : ℚ) / 5 < bs.2 := by
  unfold headingCandidates at h
  rcases List.mem_filterMap.mp h with ⟨b, hb, hf⟩
  split at hf
  · simp only [Option.some.injEq] at hf
    rw [← hf]
    exact ⟨hb, rfl, by assumption⟩
  · cases hf

theorem removeTitleMatches_subset {c : List (Block × ℚ)} {t : Chars} {x : Block × ℚ}
    (h : x ∈ removeTitleMatches c t) : x ∈ c := by
  unfold removeTitleMatches at h
  split at h
  · exact h
  · exact (List.mem_filter.mp h).1

theorem mem_validHeadings {blocks : List Block} {st : Option StructData}
    {title : Chars} {language : String} {b : Block}
    (h : b ∈ validHeadings blocks st title language) :
    ∃ s, (b, s) ∈ headingCandidates blocks st language ∧
      isValidHeading b language = true ∧
      (title ≠ [] →
        (b, s) ∈ removeTitleMatches (headingCandidates blocks st language) title) := by
  unfold validHeadings at h
  rcases List.mem_map.mp h with ⟨bs, hbs, hb1⟩
  rcases List.mem_filter.mp hbs with ⟨hbs2, hvalid⟩
  subst hb1
  by_cases ht : title ≠ []
  · rw [if_pos ht] at hbs2
    exact ⟨bs.2, removeTitleMatches_subset hbs2, hvalid, fun _ => hbs2⟩
  · rw [if_neg ht] at hbs2
    exact ⟨bs.2, hbs2, hvalid, fun h' => absurd h' ht⟩

theorem mem_outlineBlocks {blocks : List Block} {st : Option StructData}
    {title : Chars} {language : String} {p : Block × String}
    (h : p ∈ outlineBlocks blocks st title language) :
    p.1 ∈ validHeadings blocks st title language ∧ p.2 = assignLevel p.1 language := by
  unfold outlineBlocks at h
  rw [List.mem_insertionSort] at h
  unfold assignLevels at h
  rcases List.mem_map.mp h with ⟨b, hb, hp⟩
  subst hp
  exact ⟨hb, rfl⟩

theorem mem_buildOutline {blocks : List Block} {st : Option StructData}
    {title : Chars} {language : String} {e : OutlineEntry}
    (h : e ∈ buildOutline blocks st title language) :
    ∃ p ∈ outlineBlocks blocks st title language,
      e = { level := p.2, text := nfc (stripL p.1.text), page := p.1.page } := by
  rcases blocks with _ | ⟨b0, bs⟩
  · simp [buildOutline] at h
  · unfold buildOutline at h
    by_cases h1 : headingCandidates (b0 :: bs) st language = []
    · rw [if_pos h1] at h
      simp at h
    · rw [if_neg h1] at h
      by_cases h2 : validHeadings (b0 :: bs) st title language = []
      · rw [if_pos h2] at h
        simp at h
      · rw [if_neg h2] at h
        unfold formatHeadings at h
        rcases List.mem_map.mp h with ⟨p, hp, he⟩
        exact ⟨p, hp, he.symm⟩

theorem buildOutline_from_blocks {blocks : List Block} {st : Option StructData}
    {title : Chars} {language : String} {e : OutlineEntry}
    (h : e ∈ buildOutline blocks st title language) :
    ∃ b ∈ blocks, e.page = b.page := by
  rcases mem_buildOutline h with ⟨p, hp, he⟩
  rcases mem_outlineBlocks hp with ⟨hv, _⟩
  rcases mem_validHeadings hv with ⟨s, hc, _, _⟩
  rcases mem_headingCandidates hc with ⟨hb, _, _⟩
  exact ⟨p.1, hb, by rw [he]⟩

theorem pageLoop_length {raws : List RawBlock} {pageIdx : Nat} {rect : PageRect}
    {acc : List Block} (h : acc.length ≤ memoryThreshold) :
    (pageLoop raws pageIdx rect acc).1.length ≤ memoryThreshold := by
  induction raws generalizing acc with
  | nil => exact h
  | cons r rs ih =>
    unfold pageLoop
    cases hr : r.lines with
    | none => exact ih h
    | some lines =>
      dsimp only
      split
      · rw [List.length_take]
        omega
      · exact ih (by omega)

theorem docLoop_length {pages : List (Except String PageData)} {pageIdx : Nat}
    {acc : List Block} (h : acc.length ≤ memoryThreshold) :
    (docLoop pages pageIdx acc).length ≤ memoryThreshold := by
  induction pages generalizing pageIdx acc with
  | nil => exact h
  | cons p ps ih =>
    unfold docLoop
    cases p with
    | error e => exact ih h
    | ok page =>
      dsimp only
      split
      · exact pageLoop_length h
      · exact ih (pageLoop_length h)

theorem getTextBlocks_length (doc : Doc) (n : Nat) :
    (getTextBlocks doc n).length ≤ memoryThreshold := by
  unfold getTextBlocks
  exact docLoop_length (by simp)

theorem makeTextBlock_page {spans : List Span} {pageNum : Nat} {rect : PageRect}
    {b : Block} (h : makeTextBlock spans pageNum rect = some b) : b.page = pageNum := by
  rcases spans with _ | ⟨s0, rest⟩
  · cases h
  · unfold makeTextBlock at h
    dsimp only at h
    split at h
    · cases h
    · simp only [Option.some.injEq] at h
      rw [← h]

theorem processBlockLines_page {lines : List Line} {pageNum : Nat} {rect : PageRect}
    {b : Block} (h : b ∈ processBlockLines lines pageNum rect) : b.page = pageNum := by
  unfold processBlockLines at h
  rcases List.mem_flatten.mp h with ⟨l, hl, hbl⟩
  rcases List.mem_map.mp hl with ⟨line, _, hline⟩
  rw [← hline] at hbl
  split at hbl
  · exact absurd hbl (List.not_mem_nil b)
  · rcases List.mem_filterMap.mp hbl with ⟨g, _, hg⟩
    rcases hmk : makeTextBlock g pageNum rect with _ | b'
    · rw [hmk] at hg
      cases hg
    · rw [hmk] at hg
      dsimp only at hg
      by_cases hu : isUsefulText b'.text
      · rw [if_pos hu] at hg
        simp only [Option.some.injEq] at hg
        rw [← hg]
        exact makeTextBlock_page hmk
      · rw [if_neg hu] at hg
        cases hg

theorem pageLoop_pages {raws : List RawBlock} {pageIdx : Nat} {rect : PageRect}
    {acc : List Block} {b : Block} (h : b ∈ (pageLoop raws pageIdx rect acc).1) :
    b ∈ acc ∨ b.page = pageIdx := by
  induction raws generalizing acc with
  | nil => exact Or.inl h
  | cons r rs ih =>
    unfold pageLoop at h
    cases hr : r.lines with
    | none =>
      rw [hr] at h
      exact ih h
    | some lines =>
      rw [hr] at h
      dsimp only at h
      split at h
      · have := (List.take_sublist memoryThreshold _).subset h
        rcases List.mem_append.mp this with h1 | h1
        · exact Or.inl h1
        · exact Or.inr (processBlockLines_page h1)
      · rcases ih h with h1 | h1
        · rcases List.mem_append.mp h1 with h2 | h2
          · exact Or.inl h2
          · exact Or.inr (processBlockLines_page h2)
        · exact Or.inr h1

theorem docLoop_pages {pages : List (Except String PageData)} {pageIdx : Nat}
    {acc : List Block} {b : Block} (h : b ∈ docLoop pages pageIdx acc) :
    b ∈ acc ∨ b.page < pageIdx + pages.length := by
  induction pages generalizing pageIdx acc with
  | nil => exact Or.inl h
  | cons p ps ih =>
    unfold docLoop at h
    cases p with
    | error e =>
      rcases ih h with h1 | h1
      · exact Or.inl h1
      · exact Or.inr (by simp only [List.length_cons]; omega)
    | ok page =>
      dsimp only at h
      split at h
      · rcases pageLoop_pages h with h1 | h1
        · exact Or.inl h1
        · exact Or.inr (by simp only [List.length_cons]; omega)
      · rcases ih h with h1 | h1
        · rcases pageLoop_pages h1 with h2 | h2
          · exact Or.inl h2
          · exact Or.inr (by simp only [List.length_cons]; omega)
        · exact Or.inr (by simp only [List.length_cons]; omega)

theorem getTextBlocks_page {doc : Doc} {n : Nat} {b : Block}
    (h : b ∈ getTextBlocks doc n) : b.page < n := by
  unfold getTextBlocks at h
  rcases docLoop_pages h with h1 | h1
  · simp at h1
  · have := List.length_take_le n doc
    omega

/-- C1: the outline assembler's output is in reading order.  The leveled
surviving heading blocks emerge from the sort in `_build_outline` so that
consecutive entries satisfy "page strictly increases, or the page is equal
and the source block's top coordinate `y0` is non-decreasing"; consequently
the emitted outline entries, which are the formatted images of those blocks
in the same order, have non-decreasing page numbers. -/
theorem c1_outline_reading_order (blocks : List Block) (st : Option StructData)
    (title : Chars) (language : String) :
    List.Chain'
      (fun p q : Block × String =>
        p.1.page < q.1.page ∨ (p.1.page = q.1.page ∧ p.1.y0 ≤ q.1.y0))
      (outlineBlocks blocks st title language) ∧
    List.Chain' (fun e1 e2 : OutlineEntry => e1.page ≤ e2.page)
      (buildOutline blocks st title language) := by
  have hsorted := List.sorted_insertionSort headingRel
    (assignLevels (validHeadings blocks st title language) st language)
  have hchain : List.Chain' headingRel (outlineBlocks blocks st title language) :=
    List.Pairwise.chain' hsorted
  have hpage : ∀ p q : Block × String, headingRel p q → p.1.page ≤ q.1.page := by
    intro p q hpq
    unfold headingRel at hpq
    rcases hpq with h | ⟨h, _⟩
    · exact Nat.le_of_lt h
    · exact Nat.le_of_eq h
  constructor
  · exact hchain
  · rcases blocks with _ | ⟨b0, bs⟩
    · exact List.chain'_nil
    · unfold buildOutline
      by_cases h1 : headingCandidates (b0 :: bs) st language = []
      · rw [if_pos h1]
        exact List.chain'_nil
      · rw [if_neg h1]
        by_cases h2 : validHeadings (b0 :: bs) st title language = []
        · rw [if_pos h2]
          exact List.chain'_nil
        · rw [if_neg h2]
          unfold formatHeadings
          rw [List.chain'_map]
          exact hchain.imp hpage

/-- C9: block extraction is capped by the memory threshold (1000): for every
document and page count the block builder returns at most
`memory_threshold` blocks, truncating silently instead of failing (the
function is total), so every downstream stage of `extract_structure`
receives a block list of length at most 1000. -/
theorem c9_memory_cap :
    (∀ (doc : Doc) (n : Nat), (getTextBlocks doc n).length ≤ memoryThreshold) ∧
    (∀ doc : Doc, (docBlocks doc).length ≤ memoryThreshold) ∧
    memoryThreshold = 1000 := by
  refine ⟨fun doc n => getTextBlocks_length doc n, fun doc => getTextBlocks_length doc _, rfl⟩

/-- C10: only the first `page_limit = 50` pages are processed: every block
built for a document has page index below 50 (the limit is applied as
`min(len(doc), 50)`), and every emitted outline entry's `page` field is
below 50 regardless of the document's length. -/
theorem c10_fifty_page_limit :
    (∀ doc : Doc,
      (docBlocks doc).all (fun b => decide (b.page < pageLimit)) = true) ∧
    (∀ docR : Except String Doc,
      (extractStructure docR).outline.all (fun e => decide (e.page < pageLimit)) = true) ∧
    pageLimit = 50 := by
  have hblocks : ∀ (doc : Doc) (b : Block), b ∈ docBlocks doc → b.page < pageLimit := by
    intro doc b hb
    have := getTextBlocks_page hb
    omega
  refine ⟨?_, ?_, rfl⟩
  · intro doc
    rw [List.all_eq_true]
    intro b hb
    exact decide_eq_true (hblocks doc b hb)
  · intro docR
    rw [List.all_eq_true]
    intro e he
    apply decide_eq_true
    cases docR with
    | error msg => simp [extractStructure, emptyResult] at he
    | ok doc =>
      simp only [extractStructure] at he
      by_cases hbe : docBlocks doc = []
      · rw [if_pos hbe] at he
        simp [emptyResult] at he
      · rw [if_neg hbe] at he
        rcases buildOutline_from_blocks he with ⟨b, hb, hpage⟩
        rw [hpage]
        exact hblocks doc b hb

/-- C3: `extract_structure` never raises (it is a total function of the
modelled input): a failed open or processing exception yields exactly the
empty result, an empty block list yields exactly the empty result, and the
batch loop of `process_all_pdfs` produces one independent result per input
file, so one file's failure does not disturb any other file's entry. -/
theorem c3_error_isolation :
    (∀ msg : String, extractStructure (.error msg) = emptyResult) ∧
    (∀ doc : Doc, docBlocks doc = [] → extractStructure (.ok doc) = emptyResult) ∧
    (∀ files : List (Except String Doc), (processAllPdfs files).length = files.length) ∧
    (∀ (files : List (Except String Doc)) (i : Nat),
      (processAllPdfs files)[i]? = (files[i]?).map extractStructure) ∧
    emptyResult = { title := [], outline := [] } := by
  refine ⟨fun _ => rfl, ?_, ?_, ?_, rfl⟩
  · intro doc h
    simp only [extractStructure]
    rw [if_pos h]
  · intro files
    exact List.length_map files extractStructure
  · intro files i
    exact List.getElem?_map extractStructure files i

/-- Witness for C3 at a concrete input: the empty document has no blocks,
so `extract_structure` returns the empty result. -/
theorem c3_error_isolation_witness :
    docBlocks [] = [] ∧ extractStructure (.ok []) = emptyResult :=
  ⟨rfl, c3_error_isolation.2.1 [] rfl⟩

/-- C7: the script classifier is a majority vote over per-character classes
that ignores digits, punctuation and whitespace: a non-empty text whose
non-ignored characters all classify as Cyrillic is tagged `cyrillic`
(likewise `arabic` and `cjk` for all-Arabic and all-CJK text), and a
non-empty text with no script evidence (every character ignored) falls back
to `latin`. -/
theorem c7_script_majority :
    (∀ cs : Chars, cs ≠ [] → (∃ c ∈ cs, scriptSkip c = false) →
      (∀ c ∈ cs, scriptSkip c = false → charClass c = "cyrillic") →
      getScriptType cs = "cyrillic") ∧
    (∀ cs : Chars, cs ≠ [] → (∃ c ∈ cs, scriptSkip c = false) →
      (∀ c ∈ cs, scriptSkip c = false → charClass c = "arabic") →
      getScriptType cs = "arabic") ∧
    (∀ cs : Chars, cs ≠ [] → (∃ c ∈ cs, scriptSkip c = false) →
      (∀ c ∈ cs, scriptSkip c = false → charClass c = "cjk") →
      getScriptType cs = "cjk") ∧
    (∀ cs : Chars, cs ≠ [] → (∀ c ∈ cs, scriptSkip c = true) →
      getScriptType cs = "latin") :=
  ⟨fun _ hne hev hall => getScriptType_homog hne hev hall,
   fun _ hne hev hall => getScriptType_homog hne hev hall,
   fun _ hne hev hall => getScriptType_homog hne hev hall,
   fun _ hne hall => getScriptType_all_skip hne hall⟩

/-- Witness for C7 at concrete inputs: an all-Cyrillic word, an all-Arabic
word, an all-CJK word, and a digits-only text. -/
theorem c7_script_majority_witness :
    getScriptType "Привет".data = "cyrillic" ∧
    getScriptType "مقدمة".data = "arabic" ∧
    getScriptType "引言".data = "cjk" ∧
    getScriptType "123".data = "latin" :=
  ⟨c7_script_majority.1 _ (by decide) (by decide) (by decide),
   c7_script_majority.2.1 _ (by decide) (by decide) (by decide),
   c7_script_majority.2.2.1 _ (by decide) (by decide) (by decide),
   c7_script_majority.2.2.2 _ (by decide) (by decide)⟩

theorem isMajorSection_of_page_bold_size {textLower : Chars} {b : Block}
    {language : String} (hp : b.page ≤ 1) (hb : isBold b = true)
    (hs : (14 : ℚ) ≤ b.font_size) :
    isMajorSection textLower b language = true := by
  unfold isMajorSection
  by_cases hk : ((majorWords language).any fun w => containsSub textLower w) = true
  · rw [if_pos hk]
  · rw [if_neg hk]
    by_cases hn :
        (if b.script_type = "cjk" then reCjkMajorNum b.text
         else reWestMajorNum b.text) = true
    · rw [if_pos hn]
    · rw [if_neg hn]
      simp [hp, hb, hs]

/-- C6: level assignment in `_assign_levels` is a decision cascade with
default H3 in which the H1 test runs before the H2 test and the first match
wins: a surviving block whose major-section test holds is paired with level
H1 (even when the subsection test also holds), a surviving block on page
index ≤ 1 that is bold with font size ≥ 14 is paired with level H1, and a
block passing neither the H1 test nor the H2 test is paired with H3. -/
theorem c6_level_cascade :
    ∀ (hs : List Block) (st : Option StructData) (language : String) (b : Block),
      b ∈ hs →
      ((isMajorSection ((stripL b.text).map pyToLower) b language = true →
          (b, "H1") ∈ assignLevels hs st language) ∧
       (b.page ≤ 1 → isBold b = true → (14 : ℚ) ≤ b.font_size →
          (b, "H1") ∈ assignLevels hs st language) ∧
       (isMajorSection ((stripL b.text).map pyToLower) b language = false →
        isSubsection ((stripL b.text).map pyToLower) b language = false →
          (b, "H3") ∈ assignLevels hs st language)) := by
  intro hs st language b hb
  have hmem : (b, assignLevel b language) ∈ assignLevels hs st language := by
    unfold assignLevels
    exact List.mem_map_of_mem _ hb
  refine ⟨?_, ?_, ?_⟩
  · intro hmaj
    have : assignLevel b language = "H1" := by
      unfold assignLevel
      rw [hmaj]
      rfl
    rw [← this]
    exact hmem
  · intro hp hbold hsize
    have : assignLevel b language = "H1" := by
      unfold assignLevel
      rw [isMajorSection_of_page_bold_size hp hbold hsize]
      rfl
    rw [← this]
    exact hmem
  · intro hmaj hsub
    have : assignLevel b language = "H3" := by
      unfold assignLevel
      rw [hmaj, hsub]
      rfl
    rw [← this]
    exact hmem

/-- Witness for C6 at a concrete input: the bold page-0 size-16 block is
assigned H1. -/
theorem c6_level_cascade_witness :
    boldIntroBlock ∈ [boldIntroBlock] ∧
    (boldIntroBlock, "H1") ∈ assignLevels [boldIntroBlock] none "english" :=
  ⟨by simp,
   (c6_level_cascade [boldIntroBlock] none "english" boldIntroBlock (by simp)).2.1
     (by decide) (by decide) (by decide)⟩

theorem findTitle_cases (blocks : List Block) (st : Option StructData)
    (language : String) :
    findTitle blocks st language = [] ∨
    ∃ t, findTitle blocks st language = cleanTitle t language := by
  rcases blocks with _ | ⟨b0, bs⟩
  · exact Or.inl rfl
  · unfold findTitle
    by_cases h1 : firstPageBlocks (b0 :: bs) = []
    · rw [if_pos h1]
      exact Or.inl rfl
    · rw [if_neg h1]
      rcases htc : titleCandidates (b0 :: bs) st language with _ | ⟨c, cs⟩
      · rcases hfv : (firstPageBlocks (b0 :: bs)).filter
            (fun b => !obviouslyNotTitle b.text language) with _ | ⟨v, vs⟩
        · exact Or.inl (by rw [hfv])
        · exact Or.inr ⟨_, by rw [hfv]⟩
      · exact Or.inr ⟨_, rfl⟩

theorem findTitle_has_nonspace {blocks : List Block} {st : Option StructData}
    {language : String} (h : findTitle blocks st language ≠ []) :
    ∃ c ∈ findTitle blocks st language, pyIsSpaceChar c = false := by
  rcases findTitle_cases blocks st language with h0 | ⟨t, ht⟩
  · exact absurd h0 h
  · rw [ht] at h ⊢
    exact cleanTitle_has_nonspace h

theorem isValidHeading_nonspace {b : Block} {language : String}
    (h : isValidHeading b language = true) :
    ∃ c ∈ b.text, pyIsSpaceChar c = false := by
  have hne : stripL b.text ≠ [] := by
    intro h0
    unfold isValidHeading at h
    rw [h0] at h
    by_cases hc : b.script_type = "cjk" <;> simp [hc] at h
  rcases stripL_has_nonspace hne with ⟨c, hc, hns⟩
  exact ⟨c, hc, hns⟩

/-- C4: title de-duplication.  When the selected title is non-empty, every
entry of the emitted outline has Jaccard word overlap with the title
strictly below 0.4, the overlap of word sets A and B being
`|A∩B| / max(|A|,|B|)` over the lower-cased NFC-normalized word sets of the
title and of the heading text. -/
theorem c4_title_overlap_below_threshold :
    ∀ (blocks : List Block) (st : Option StructData) (language : String),
      findTitle blocks st language ≠ [] →
      ∀ e ∈ buildOutline blocks st (findTitle blocks st language) language,
        jaccardSim (wordSet (nfc ((findTitle blocks st language).map pyToLower)))
          (wordSet (nfc (e.text.map pyToLower))) < 2 / 5 := by
  intro blocks st language ht e he
  rcases mem_buildOutline he with ⟨p, hp, hefmt⟩
  rcases mem_outlineBlocks hp with ⟨hv, _⟩
  rcases mem_validHeadings hv with ⟨s, _, hvalid, hrm⟩
  have hmem := hrm ht
  unfold removeTitleMatches at hmem
  rw [if_neg ht] at hmem
  have hfil := (List.mem_filter.mp hmem).2
  dsimp only at hfil
  have htw : wordSet (nfc ((findTitle blocks st language).map pyToLower)) ≠ ∅ :=
    wordSet_lower_ne_empty (findTitle_has_nonspace ht)
  have hbw : wordSet (nfc (p.1.text.map pyToLower)) ≠ ∅ :=
    wordSet_lower_ne_empty (isValidHeading_nonspace hvalid)
  rw [if_pos ⟨htw, hbw⟩] at hfil
  have hsim := of_decide_eq_true hfil
  have hetext : e.text = nfc (stripL p.1.text) := by rw [hefmt]
  rw [hetext]
  have hbridge :
      wordSet (nfc ((nfc (stripL p.1.text)).map pyToLower)) =
        wordSet (nfc (p.1.text.map pyToLower)) := wordSet_lower_strip p.1.text
  rw [hbridge]
  exact hsim

unseal Rat.mul Rat.add Rat.sub Rat.inv

set_option maxRecDepth 20000

/-- Witness for C4 at a concrete input: the single-block document yields
the non-empty title "1. Introduction", and applying the C4 theorem gives
the overlap bound for every emitted outline entry. -/
theorem c4_title_overlap_below_threshold_witness :
    findTitle [boldIntroBlock] none "english" ≠ [] ∧
    ∀ e ∈ buildOutline [boldIntroBlock] none
        (findTitle [boldIntroBlock] none "english") "english",
      jaccardSim
        (wordSet (nfc ((findTitle [boldIntroBlock] none "english").map pyToLower)))
        (wordSet (nfc (e.text.map pyToLower))) < 2 / 5 :=
  ⟨by decide,
   c4_title_overlap_below_threshold [boldIntroBlock] none "english" (by decide)⟩

/-- Counterexample for C2 as frozen: a 201-character single-word Latin
title is not CJK, yet `_clean_title` returns it unchanged with 201 > 200
characters (the 30-word truncation does not fire because the text is one
word). -/
theorem c2_title_length_counterexample :
    getScriptType (cleanedTitleText (List.replicate 201 'a')) ≠ "cjk" ∧
    200 < (cleanTitle (List.replicate 201 'a') "english").length := by
  constructor
  · decide
  · decide

/-- C2 as amended: for a title whose cleaned text has CJK script the result
has at most 103 characters (100 plus the three-character ellipsis); for any
other script the result is either the cleaned text unchanged (in particular
when it is at most 200 characters or at most 30 words, with no character
bound) or its first 30 words followed by an ellipsis. -/
theorem c2_title_length_amended :
    ∀ (t : Chars) (lang : String),
      (getScriptType (cleanedTitleText t) = "cjk" →
        (cleanTitle t lang).length ≤ 103) ∧
      (getScriptType (cleanedTitleText t) ≠ "cjk" →
        cleanTitle t lang = cleanedTitleText t ∨
        cleanTitle t lang =
          joinSep [' '] ((wordsL (cleanedTitleText t)).take 30) ++ "...".data) := by
  intro t lang
  constructor
  · intro hcjk
    unfold cleanTitle
    rw [if_pos hcjk]
    by_cases hlen : 100 < (cleanedTitleText t).length
    · rw [if_pos hlen]
      rw [List.length_append, List.length_take]
      have : ("...".data).length = 3 := by decide
      omega
    · rw [if_neg hlen]
      omega
  · intro hncjk
    unfold cleanTitle
    rw [if_neg hncjk]
    by_cases h2 : 200 < (cleanedTitleText t).length
    · rw [if_pos h2]
      by_cases h3 : 30 < (wordsL (cleanedTitleText t)).length
      · rw [if_pos h3]
        exact Or.inr rfl
      · rw [if_neg h3]
        exact Or.inl rfl
    · rw [if_neg h2]
      exact Or.inl rfl

/-- Witness for C2 as amended at a concrete input: a 101-ideograph title is
truncated to at most 103 characters. -/
theorem c2_title_length_amended_witness :
    getScriptType (cleanedTitleText (List.replicate 101 '引')) = "cjk" ∧
    (cleanTitle (List.replicate 101 '引') "english").length ≤ 103 :=
  ⟨by decide, (c2_title_length_amended (List.replicate 101 '引') "english").1 (by decide)⟩

/-- Counterexample for C5 as frozen: the definitely-not-heading filter does
NOT match "Contact: info@example.com" (21 of its 25 characters are
alphanumeric, it has 2 words, and no administrative phrase occurs in it),
and in a concrete document the block reaches the emitted outline (as H1:
it is bold, size 16 ≥ 14, on page 0). -/
theorem c5_not_heading_counterexample :
    definitelyNotHeading (stripL contactText) "english" = false ∧
    (extractStructure (.ok contactDoc)).outline =
      [{ level := "H1", text := contactText, page := 0 }] := by
  constructor
  · decide
  · decide

/-- C5 as amended: the definitely-not-heading filter does not match
"Contact: info@example.com" for any detected language (the filter never
reads its language argument), so the block's score is computed normally and
such a block can appear in the emitted outline, as the concrete document
`contactDoc` shows. -/
theorem c5_not_heading_amended :
    (∀ language : String,
      definitelyNotHeading (stripL contactText) language = false) ∧
    (extractStructure (.ok contactDoc)).outline ≠ [] := by
  constructor
  · intro language
    rfl
  · decide

/-- Witness for C5 as amended at a concrete language. -/
theorem c5_not_heading_amended_witness :
    definitelyNotHeading (stripL contactText) "english" = false :=
  c5_not_heading_amended.1 "english"

/-- Counterexample for C8 as frozen: on the two-block sample with font
sizes [10, 20] the analyzer's median is the upper middle element 20, while
the reference median of the sample is 15. -/
theorem c8_font_stats_counterexample :
    (analyzeStructure [statBlockA, statBlockB] "english").map (fun sd => sd.fonts.median) =
      some 20 ∧
    specMedian (blockSizes [statBlockA, statBlockB]) = 15 ∧
    (20 : ℚ) ≠ 15 := by
  refine ⟨by decide, by decide, by decide⟩

/-- C8 as amended: the percentile fallbacks hold as claimed (p75 is the
maximum for under 5 blocks and the sorted element at index ⌊0.75·n⌋
otherwise, p90 the maximum under 11 blocks, p95 the maximum under 21), and
the mean equals the reference mean; the median, however, is the sorted
element at index ⌊n/2⌋ (the upper median), which agrees with the reference
median only for odd-sized samples. -/
theorem c8_font_stats_amended :
    ∀ (blocks : List Block) (lang : String),
      blocks ≠ [] →
      (blocks.length < 5 →
        (analyzeStructure blocks lang).map (fun sd => sd.fonts.p75) =
          some (pyMaxQ (blockSizes blocks))) ∧
      (4 < blocks.length →
        (analyzeStructure blocks lang).map (fun sd => sd.fonts.p75) =
          some ((sortedSizes blocks).getD (3 * blocks.length / 4) 0)) ∧
      (blocks.length < 11 →
        (analyzeStructure blocks lang).map (fun sd => sd.fonts.p90) =
          some (pyMaxQ (blockSizes blocks))) ∧
      (blocks.length < 21 →
        (analyzeStructure blocks lang).map (fun sd => sd.fonts.p95) =
          some (pyMaxQ (blockSizes blocks))) ∧
      ((analyzeStructure blocks lang).map (fun sd => sd.fonts.average) =
        some (specMean (blockSizes blocks))) ∧
      ((analyzeStructure blocks lang).map (fun sd => sd.fonts.median) =
        some ((sortedSizes blocks).getD (blocks.length / 2) 0)) ∧
      (blocks.length % 2 = 1 →
        (analyzeStructure blocks lang).map (fun sd => sd.fonts.median) =
          some (specMedian (blockSizes blocks))) := by
  intro blocks lang hne
  rcases blocks with _ | ⟨b0, bs⟩
  · exact absurd rfl hne
  · have hlen : blockSizes (b0 :: bs) ≠ [] := by
      unfold blockSizes
      simp
    have hlast : (b0 :: bs).length - 1 = (blockSizes (b0 :: bs)).length - 1 := by
      unfold blockSizes
      simp
    have hmaxfall :
        (sortedSizes (b0 :: bs)).getD ((b0 :: bs).length - 1) 0 =
          pyMaxQ (blockSizes (b0 :: bs)) := by
      unfold sortedSizes
      rw [hlast]
      exact sortedLast_eq_pyMaxQ hlen
    refine ⟨?_, ?_, ?_, ?_, ?_, rfl, ?_⟩
    · intro h5
      show some (if 4 < (b0 :: bs).length then _ else _) = _
      rw [if_neg (by omega), hmaxfall]
    · intro h5
      show some (if 4 < (b0 :: bs).length then _ else _) = _
      rw [if_pos h5]
    · intro h11
      show some (if 10 < (b0 :: bs).length then _ else _) = _
      rw [if_neg (by omega), hmaxfall]
    · intro h21
      show some (if 20 < (b0 :: bs).length then _ else _) = _
      rw [if_neg (by omega), hmaxfall]
    · show some ((blockSizes (b0 :: bs)).sum / ((b0 :: bs).length : ℚ)) = _
      unfold specMean
      rw [show (blockSizes (b0 :: bs)).length = (b0 :: bs).length by
        unfold blockSizes; simp]
    · intro hodd
      show some ((sortedSizes (b0 :: bs)).getD ((b0 :: bs).length / 2) 0) = _
      unfold specMedian
      rw [show (blockSizes (b0 :: bs)).length = (b0 :: bs).length by
        unfold blockSizes; simp]
      rw [if_pos hodd]
      rfl

/-- Witness for C8 as amended at a concrete input: on the single block of
size 10, p75 falls back to the maximum. -/
theorem c8_font_stats_amended_witness :
    [statBlockA] ≠ [] ∧ [statBlockA].length < 5 ∧
    (analyzeStructure [statBlockA] "english").map (fun sd => sd.fonts.p75) =
      some (pyMaxQ (blockSizes [statBlockA])) :=
  ⟨by decide, by decide,
   (c8_font_stats_amended [statBlockA] "english" (by decide)).1 (by decide)⟩

end PDFX
